import Mathlib

/-!
mediastress: call state machine, dispatch loop and ramp scheduler

A shallow embedding of `main.go`.

Modelling conventions.

* Go strings are Lean strings; `len(s) == 0` is `s.length = 0` and
  `strings.HasPrefix` compares character lists (the prefix `+OK` is ASCII).
* The event-socket connection is an external collaborator.  `c.Send` is a
  deterministic oracle `Transport` from the commands already sent and the
  command being sent to either an error or a reply event; the connection
  state is the log of commands sent.  Every sequence of replies is the
  behaviour of some oracle, since each `Send` happens at a longer log.
* `panic` and `log.Fatal` end the process; handlers return the call as it is
  at that point together with the reason (`Abort`).
* `calls` maps identifiers to pointers; every pointer is stored under one
  key only, so the registry is an association list of call values and the
  handler's in-place mutation is a write back under the looked-up key.
* `range` over a Go map visits the entries in an unspecified order and skips
  entries deleted before they are reached: the sweep takes the order of
  the keys as an argument.
* `select` picks either source: a run is a sequence of events and ticks.
  The goroutine `readEvents` only feeds the channel; a read failure there
  kills the process, which cuts a run short and adds no state.
* `totalCalls` is a parameter of the loop (`const totalCalls = 10` in the
  source); `callsCount` is a Go `int`, it is only incremented while below
  `totalCalls`, so it cannot overflow.
* `eventsocket.Event`, its method `Get` and `Connection.Send` belong to the
  library `go-eventsocket`: `Get` returns the empty string for an absent
  field, `Send` returns either an error or a reply.
* Console output is not modelled; `logAllEvents` is `false`, so the
  `PrettyPrint` branches never run.
-/

namespace Mediastress

/-! ## Errors, constants, data model -/

/-- Go `error` values met by the program: the package-level
`apiCommandNotOkay` and whatever the transport returns. -/
inductive GoError where
  | apiCommandNotOkay
  | transport (msg : String)
  deriving DecidableEq, Repr

def audioFile : String := "ivr-you_lose.wav"

def callToAddress : String := "18775437013@172.16.19.89:52173"

inductive callState where
  | stateNew
  | statePlaying
  | stateWaitingHangup
  | stateDone
  deriving DecidableEq, Repr

open callState

structure inprogressCall where
  uuid : String
  state : callState
  deriving DecidableEq, Repr

/-- An `eventsocket.Event`: header fields and a body. -/
structure Event where
  Header : List (String × String)
  Body : String
  deriving DecidableEq, Repr

/-- The method `ev.Get(key)`: the field's value, or the empty string when the
field is absent. -/
def Event.Get (ev : Event) (key : String) : String :=
  match ev.Header.lookup key with
  | some v => v
  | none => ""

/-! ## `uuidRexp` and `FindString` -/

/-- One position of a pattern: the class `\w` or a literal character. -/
inductive ReAtom where
  | w
  | ch (c : Char)
  deriving DecidableEq, Repr

/-- The Perl class `\w` of Go's `regexp`: `[0-9A-Za-z_]`. -/
def isWordChar (c : Char) : Bool :=
  (decide ('0' ≤ c) && decide (c ≤ '9')) ||
  (decide ('A' ≤ c) && decide (c ≤ 'Z')) ||
  c == '_' ||
  (decide ('a' ≤ c) && decide (c ≤ 'z'))

def matchAtom : ReAtom → Char → Bool
  | .w, c => isWordChar c
  | .ch d, c => c == d

/-- The pattern matches a prefix of the text. -/
def matchHere : List ReAtom → List Char → Bool
  | [], _ => true
  | _ :: _, [] => false
  | a :: as, c :: cs => matchAtom a c && matchHere as cs

/-- Leftmost match of a pattern made of single-character positions. -/
def findFrom (re : List ReAtom) : List Char → Option (List Char)
  | [] => if matchHere re [] then some [] else none
  | c :: cs =>
    if matchHere re (c :: cs) then some ((c :: cs).take re.length)
    else findFrom re cs

/-- The method `re.FindString(s)`: the text of the leftmost match, or the
empty string when there is none. -/
def FindString (re : List ReAtom) (s : String) : String :=
  match findFrom re s.data with
  | some m => String.mk m
  | none => ""

/-- The pattern `\w{8}-\w{4}-\w{4}-\w{4}-\w{12}`. -/
def uuidRexp : List ReAtom :=
  List.replicate 8 .w ++ [.ch '-'] ++ List.replicate 4 .w ++ [.ch '-'] ++
  List.replicate 4 .w ++ [.ch '-'] ++ List.replicate 4 .w ++ [.ch '-'] ++
  List.replicate 12 .w

/-- `strings.HasPrefix(s, pre)`. -/
def HasPrefix (s pre : String) : Bool :=
  pre.data.isPrefixOf s.data

def grabUuidFromOKBody (ev : Event) : String × Option GoError :=
  if !HasPrefix ev.Body "+OK" then
    ("", some .apiCommandNotOkay)
  else
    (FindString uuidRexp ev.Body, none)

/-! ## Transport -/

abbrev SendResult := Except GoError Event

/-- The switch as seen through `c.Send`: commands sent so far, command. -/
abbrev Transport := List String → String → SendResult

structure Connection where
  sent : List String
  deriving DecidableEq, Repr

def Connection.Send (T : Transport) (c : Connection) (command : String) :
    SendResult × Connection :=
  (T c.sent command, { sent := c.sent ++ [command] })

/-- How the process ends abnormally. -/
inductive Abort where
  | panic (err : GoError)
  | logFatal (err : GoError)
  deriving DecidableEq, Repr

/-! ## Call creation -/

def originateCommand : String :=
  "api originate sofia/external/sip:" ++ callToAddress ++ " &park"

/-- The function `newCall`: `log.Fatal` exits, so it returns a call or never
returns. -/
def newCall (T : Transport) (c : Connection) : Except Abort inprogressCall × Connection :=
  match c.Send T originateCommand with
  | (.error err, c1) => (.error (.logFatal err), c1)
  | (.ok originateEv, c1) =>
    match grabUuidFromOKBody originateEv with
    | (_, some err) => (.error (.logFatal err), c1)
    | (uuid, none) => (.ok { uuid := uuid, state := stateNew }, c1)

/-! ## Call state machine -/

structure HandlerResult where
  call : inprogressCall
  conn : Connection
  abort : Option Abort
  deriving DecidableEq, Repr

def playCommand (uuid : String) : String :=
  "api uuid_broadcast " ++ uuid ++ " " ++ audioFile ++ " aleg"

def hangupCommand (uuid : String) : String :=
  "api sched_hangup +1 " ++ uuid

def playAudio (T : Transport) (c : Connection) (call : inprogressCall) (_ev : Event) :
    HandlerResult :=
  match c.Send T (playCommand call.uuid) with
  | (.error err, c1) => { call := call, conn := c1, abort := some (.panic err) }
  | (.ok playEv, c1) =>
    match grabUuidFromOKBody playEv with
    | (_, some err) => { call := call, conn := c1, abort := some (.panic err) }
    | (_, none) => { call := { call with state := statePlaying }, conn := c1, abort := none }

def scheduleHangup (T : Transport) (c : Connection) (call : inprogressCall) (_ev : Event) :
    HandlerResult :=
  match c.Send T (hangupCommand call.uuid) with
  | (.error err, c1) => { call := call, conn := c1, abort := some (.panic err) }
  | (.ok _, c1) => { call := { call with state := stateWaitingHangup }, conn := c1, abort := none }

def handleEventNew (T : Transport) (c : Connection) (call : inprogressCall) (ev : Event) :
    HandlerResult :=
  if ev.Get "Answer-State" = "ringing" then
    { call := call, conn := c, abort := none }
  else if ev.Get "Answer-State" = "answered" then
    playAudio T c call ev
  else
    { call := call, conn := c, abort := none }

def handleEventPlaying (T : Transport) (c : Connection) (call : inprogressCall) (ev : Event) :
    HandlerResult :=
  if ev.Get "Event-Name" = "PLAYBACK_START" then
    { call := call, conn := c, abort := none }
  else if ev.Get "Event-Name" = "PLAYBACK_STOP" then
    scheduleHangup T c call ev
  else
    { call := call, conn := c, abort := none }

def handleEventWaitingHangup (_T : Transport) (c : Connection) (call : inprogressCall)
    (ev : Event) : HandlerResult :=
  if ev.Get "Channel-State" = "CS_DESTROY" then
    { call := { call with state := stateDone }, conn := c, abort := none }
  else
    { call := call, conn := c, abort := none }

def handleCallEvent (T : Transport) (c : Connection) (call : inprogressCall) (ev : Event) :
    HandlerResult :=
  match call.state with
  | stateNew => handleEventNew T c call ev
  | statePlaying => handleEventPlaying T c call ev
  | stateWaitingHangup => handleEventWaitingHangup T c call ev
  | stateDone => { call := call, conn := c, abort := none }

/-! ## Registry -/

abbrev Registry := List (String × inprogressCall)

def mapGet (m : Registry) (k : String) : Option inprogressCall :=
  m.lookup k

/-- The assignment `m[k] = v`. -/
def mapSet (k : String) (v : inprogressCall) : Registry → Registry
  | [] => [(k, v)]
  | (k1, v1) :: rest =>
    if k1 = k then (k, v) :: rest else (k1, v1) :: mapSet k v rest

/-- The builtin `delete(m, k)`. -/
def mapDelete (k : String) (m : Registry) : Registry :=
  m.filter (fun e => !(e.1 == k))

def mapKeys (m : Registry) : List String :=
  m.map Prod.fst

/-- One iteration of the clean-up loop, for the entry under `k`. -/
def sweepStep (m : Registry) (k : String) : Registry :=
  match mapGet m k with
  | some call => if call.state = stateDone then mapDelete call.uuid m else m
  | none => m

/-- The clean-up loop, visiting the keys in the given order. -/
def sweep (order : List String) (m : Registry) : Registry :=
  order.foldl sweepStep m

/-! ## Dispatch loop -/

structure LoopState where
  calls : Registry
  callsCount : Int
  conn : Connection
  deriving DecidableEq, Repr

inductive Status where
  | running (s : LoopState)
  | exited (s : LoopState)
  | aborted (a : Abort) (calls : Registry) (conn : Connection)
  deriving DecidableEq, Repr

/-- The part of `main` before the loop, after a successful `Dial`. -/
def startup (T : Transport) : Status :=
  let c1 := (Connection.Send T { sent := [] } "events json ALL").2
  match newCall T c1 with
  | (.error a, c2) => .aborted a [] c2
  | (.ok call, c2) =>
    .running { calls := mapSet call.uuid call [], callsCount := 1, conn := c2 }

/-- The `case ev := <-eventChan` branch; `order` is the order in which the
clean-up loop meets the keys. -/
def eventCase (T : Transport) (s : LoopState) (ev : Event) (order : List String) : Status :=
  let uuid := ev.Get "Unique-Id"
  if uuid.length = 0 then
    .running s
  else
    match mapGet s.calls uuid with
    | some call =>
      let r := handleCallEvent T s.conn call ev
      match r.abort with
      | some a => .aborted a (mapSet uuid r.call s.calls) r.conn
      | none =>
        .running { s with calls := sweep order (mapSet uuid r.call s.calls), conn := r.conn }
    | none => .running { s with calls := sweep order s.calls }

/-- The `case <-tick` branch. -/
def tickCase (T : Transport) (totalCalls : Int) (s : LoopState) : Status :=
  if s.callsCount < totalCalls then
    match newCall T s.conn with
    | (.error a, c1) => .aborted a s.calls c1
    | (.ok call, c1) =>
      let s1 : LoopState :=
        { calls := mapSet call.uuid call s.calls, callsCount := s.callsCount + 1, conn := c1 }
      if s1.calls.length = 0 then .exited s1 else .running s1
  else
    if s.calls.length = 0 then .exited s else .running s

/-- What `select` delivers. -/
inductive Input where
  | event (ev : Event) (order : List String)
  | tick
  deriving DecidableEq, Repr

def step (T : Transport) (totalCalls : Int) (s : LoopState) : Input → Status
  | .event ev order => eventCase T s ev order
  | .tick => tickCase T totalCalls s

/-- Run the loop over a sequence of inputs, stopping when the process ends. -/
def run (T : Transport) (totalCalls : Int) : Status → List Input → Status
  | .running s, i :: is => run T totalCalls (step T totalCalls s i) is
  | st, _ => st

/-- The clean-up order of an event input is an enumeration of the keys. -/
def Input.fits (s : LoopState) : Input → Prop
  | .event _ order => order.Perm (mapKeys s.calls)
  | .tick => True

/-- Loop-head states reachable from startup. -/
inductive Reachable (T : Transport) (totalCalls : Int) : LoopState → Prop where
  | start {s : LoopState} : startup T = .running s → Reachable T totalCalls s
  | next {s s1 : LoopState} (i : Input) : Reachable T totalCalls s → i.fits s →
      step T totalCalls s i = .running s1 → Reachable T totalCalls s1

/-! ## Vocabulary of the properties -/

/-- The values `iota` gives the states. -/
def callState.toInt : callState → Int
  | stateNew => 0
  | statePlaying => 1
  | stateWaitingHangup => 2
  | stateDone => 3

/-- The states one call goes through while `handleCallEvent` is applied to it
for each event of a sequence in turn, up to an abort. -/
def visitedStates (T : Transport) (c : Connection) (call : inprogressCall) :
    List Event → List callState
  | [] => [call.state]
  | ev :: evs =>
    let r := handleCallEvent T c call ev
    match r.abort with
    | some _ => [call.state, r.call.state]
    | none => call.state :: visitedStates T r.conn r.call evs

/-- Stay, or move to the state that follows. -/
def stepsForward (a b : callState) : Prop :=
  b = a ∨ b.toInt = a.toInt + 1

/-- The transition table of the specification, row by row. -/
def tableNext : callState → Event → callState
  | stateNew, ev =>
    if ev.Get "Answer-State" = "answered" then statePlaying else stateNew
  | statePlaying, ev =>
    if ev.Get "Event-Name" = "PLAYBACK_STOP" then stateWaitingHangup else statePlaying
  | stateWaitingHangup, ev =>
    if ev.Get "Channel-State" = "CS_DESTROY" then stateDone else stateWaitingHangup
  | stateDone, _ => stateDone

/-- The event field the specification names for each state. -/
def consultedField : callState → Option String
  | stateNew => some "Answer-State"
  | statePlaying => some "Event-Name"
  | stateWaitingHangup => some "Channel-State"
  | stateDone => none

/-- Every command is answered, without transport error, by a reply whose body
begins with `+OK`. -/
def AlwaysOK (T : Transport) : Prop :=
  ∀ h cmd, ∃ rev, T h cmd = Except.ok rev ∧ HasPrefix rev.Body "+OK" = true

/-- The commands the specification expects `handleCallEvent` to send. -/
def expectedCommands (call : inprogressCall) (ev : Event) : List String :=
  if call.state = stateNew ∧ ev.Get "Answer-State" = "answered" then
    ["api uuid_broadcast " ++ call.uuid ++ " ivr-you_lose.wav aleg"]
  else if call.state = statePlaying ∧ ev.Get "Event-Name" = "PLAYBACK_STOP" then
    ["api sched_hangup +1 " ++ call.uuid]
  else []

/-- A transport that answers every command with `+OK`. -/
def okTransport : Transport :=
  fun _ _ => Except.ok { Header := [], Body := "+OK" }

/-- Every entry is stored under its call's own identifier. -/
def KeysMatch (m : Registry) : Prop :=
  ∀ e ∈ m, e.2.uuid = e.1

/-- No registered call is in the terminal state. -/
def NoDone (m : Registry) : Prop :=
  ∀ e ∈ m, e.2.state ≠ stateDone

/-- Loop invariant on the registry. -/
structure RegistryInv (m : Registry) : Prop where
  keys : KeysMatch m
  nodup : (mapKeys m).Nodup
  live : NoDone m

/-- Loop invariant: the registry invariant and the bounds on the counter. -/
structure LoopInv (totalCalls : Int) (s : LoopState) : Prop where
  reg : RegistryInv s.calls
  pos : 1 ≤ s.callsCount
  le : s.callsCount ≤ max 1 totalCalls
  emptyNew : ∀ e ∈ s.calls, e.1 = "" → e.2.state = stateNew

/-- Loop-head states reachable from a given loop-head state. -/
inductive ReachableFrom (T : Transport) (totalCalls : Int) (s0 : LoopState) :
    LoopState → Prop where
  | refl : ReachableFrom T totalCalls s0 s0
  | next {s s1 : LoopState} (i : Input) : ReachableFrom T totalCalls s0 s → i.fits s →
      step T totalCalls s i = .running s1 → ReachableFrom T totalCalls s0 s1

/-- From the log `sent` on, no reply to an originate command yields `u`. -/
def NotReissued (T : Transport) (sent : List String) (u : String) : Prop :=
  ∀ h rev, sent <+: h → T h originateCommand = Except.ok rev →
    (grabUuidFromOKBody rev).1 ≠ u

def sampleUuid : String := "1234abcd-12ab-34cd-56ef-1234567890ab"

/-- A switch that answers the first originate command with `+OK` and
`sampleUuid`, and every other command with a bare `+OK`. -/
def sampleTransport : Transport := fun h cmd =>
  if cmd = originateCommand ∧ h.length ≤ 1 then
    Except.ok { Header := [], Body := "+OK 1234abcd-12ab-34cd-56ef-1234567890ab" }
  else
    Except.ok { Header := [], Body := "+OK" }

def sampleAnswered : Event :=
  { Header := [("Unique-Id", sampleUuid), ("Answer-State", "answered")], Body := "" }

def samplePlaybackStop : Event :=
  { Header := [("Unique-Id", sampleUuid), ("Event-Name", "PLAYBACK_STOP")], Body := "" }

def sampleDestroy : Event :=
  { Header := [("Unique-Id", sampleUuid), ("Channel-State", "CS_DESTROY")], Body := "" }

/-- The loop state right after startup against `sampleTransport`. -/
def sampleStart : LoopState :=
  { calls := [(sampleUuid, { uuid := sampleUuid, state := stateNew })],
    callsCount := 1,
    conn := { sent := ["events json ALL", originateCommand] } }

def samplePlaying : LoopState :=
  { calls := [(sampleUuid, { uuid := sampleUuid, state := statePlaying })],
    callsCount := 1,
    conn := { sent := ["events json ALL", originateCommand, playCommand sampleUuid] } }

def sampleWaiting : LoopState :=
  { calls := [(sampleUuid, { uuid := sampleUuid, state := stateWaitingHangup })],
    callsCount := 1,
    conn := { sent := ["events json ALL", originateCommand, playCommand sampleUuid,
      hangupCommand sampleUuid] } }

def sampleFinished : LoopState :=
  { calls := [],
    callsCount := 1,
    conn := { sent := ["events json ALL", originateCommand, playCommand sampleUuid,
      hangupCommand sampleUuid] } }

/-- A hexadecimal digit: `0-9`, `a-f`, `A-F`. -/
def isHexDigit (c : Char) : Bool :=
  (decide ('0' ≤ c) && decide (c ≤ '9')) ||
  (decide ('a' ≤ c) && decide (c ≤ 'f')) ||
  (decide ('A' ≤ c) && decide (c ≤ 'F'))

/-- Hyphen-separated groups, of the given sizes, of characters of a class. -/
def grouped (p : Char → Bool) : List Nat → List Char → Bool
  | [], s => s.isEmpty
  | [n], s => s.length == n && s.all p
  | n :: m :: ns, s =>
    (s.take n).length == n && (s.take n).all p &&
    (s.drop n).head? == some '-' && grouped p (m :: ns) (s.drop (n + 1))

/-- The specification's UUID-shaped token: the 8-4-4-4-12 hexadecimal
grouping. -/
def uuidShaped (s : List Char) : Bool :=
  grouped isHexDigit [8, 4, 4, 4, 12] s

/-- The pattern of hyphen-separated groups of `\w` of the given sizes. -/
def patternOf : List Nat → List ReAtom
  | [] => []
  | [n] => List.replicate n ReAtom.w
  | n :: m :: ns => List.replicate n ReAtom.w ++ ReAtom.ch '-' :: patternOf (m :: ns)

/-- What `uuidRexp` accepts: the 8-4-4-4-12 grouping of word characters. -/
def wordShaped (s : List Char) : Bool :=
  matchHere uuidRexp s && s.length == 36

/-- A switch that rejects every command: the reply is `-ERR`. -/
def rejectingTransport : Transport :=
  fun _ _ => Except.ok { Header := [], Body := "-ERR no reply" }

/-- The 8-4-4-4-12 grouping of word characters (letters, digits, underscore). -/
def wordGrouped (s : List Char) : Bool :=
  grouped isWordChar [8, 4, 4, 4, 12] s

/-! ## The call state machine moves forward only -/

theorem handleCallEvent_state (T : Transport) (c : Connection) (call : inprogressCall)
    (ev : Event) :
    stepsForward call.state (handleCallEvent T c call ev).call.state := by
  obtain ⟨u, st⟩ := call
  unfold stepsForward
  cases st <;>
    simp only [handleCallEvent, handleEventNew, handleEventPlaying, handleEventWaitingHangup,
      playAudio, scheduleHangup] <;>
    (repeat' split) <;> simp [callState.toInt]

theorem handleCallEvent_uuid (T : Transport) (c : Connection) (call : inprogressCall)
    (ev : Event) :
    (handleCallEvent T c call ev).call.uuid = call.uuid := by
  obtain ⟨u, st⟩ := call
  cases st <;>
    simp only [handleCallEvent, handleEventNew, handleEventPlaying, handleEventWaitingHangup,
      playAudio, scheduleHangup] <;>
    (repeat' split) <;> simp

theorem visitedStates_head (T : Transport) (c : Connection) (call : inprogressCall)
    (evs : List Event) :
    ∃ rest, visitedStates T c call evs = call.state :: rest := by
  cases evs with
  | nil => exact ⟨[], rfl⟩
  | cons ev evs =>
    simp only [visitedStates]
    split
    · exact ⟨_, rfl⟩
    · exact ⟨_, rfl⟩

theorem visitedStates_chain (T : Transport) (evs : List Event) :
    ∀ (c : Connection) (call : inprogressCall),
      List.Chain' stepsForward (visitedStates T c call evs) := by
  induction evs with
  | nil => intro c call; simp [visitedStates]
  | cons ev evs ih =>
    intro c call
    simp only [visitedStates]
    split
    · simp [handleCallEvent_state]
    · obtain ⟨rest, hrest⟩ := visitedStates_head T (handleCallEvent T c call ev).conn
        (handleCallEvent T c call ev).call evs
      have := ih (handleCallEvent T c call ev).conn (handleCallEvent T c call ev).call
      rw [hrest] at this ⊢
      exact List.Chain'.cons (handleCallEvent_state T c call ev) this

theorem chain_playing_before_hangup :
    ∀ (pre : List callState) (a : callState) (post : List callState),
      a.toInt ≤ 1 → List.Chain' stepsForward (a :: (pre ++ stateWaitingHangup :: post)) →
      statePlaying ∈ a :: pre := by
  intro pre
  induction pre with
  | nil =>
    intro a post ha hc
    simp only [List.nil_append, List.chain'_cons] at hc
    have h := hc.1
    unfold stepsForward at h
    cases a <;> simp [callState.toInt] at ha h ⊢
  | cons b pre ih =>
    intro a post ha hc
    simp only [List.cons_append, List.chain'_cons] at hc
    have h := hc.1
    unfold stepsForward at h
    by_cases hp : a = statePlaying
    · simp [hp]
    · have hb : b.toInt ≤ 1 := by
        cases a <;> cases b <;> simp [callState.toInt] at ha h hp ⊢
      have := ih b post hb hc.2
      exact List.mem_cons_of_mem _ this

theorem visitedStates_sorted (T : Transport) (c : Connection) (call : inprogressCall)
    (evs : List Event) :
    List.Pairwise (fun a b => a.toInt ≤ b.toInt) (visitedStates T c call evs) := by
  have h := visitedStates_chain T evs c call
  have h2 : List.Chain' (fun a b => a.toInt ≤ b.toInt) (visitedStates T c call evs) := by
    refine List.Chain'.imp ?_ h
    intro a b hab
    rcases hab with h | h
    · simp [h]
    · omega
  haveI : IsTrans callState (fun a b => a.toInt ≤ b.toInt) := ⟨fun _ _ _ h1 h2 => le_trans h1 h2⟩
  exact List.chain'_iff_pairwise.mp h2

/-- C1: one `handleCallEvent` step leaves the state unchanged or moves it to
the state that follows in the order New, Playing, WaitingHangup, Done; over
any event sequence the states visited form a chain of such steps, never
decreasing, and a call created in New meets Playing before WaitingHangup. -/
theorem handleCallEvent_forward_walk (T : Transport) (c : Connection) (call : inprogressCall)
    (ev : Event) (evs : List Event) (u : String) :
    ((handleCallEvent T c call ev).call.state = call.state ∨
      (handleCallEvent T c call ev).call.state.toInt = call.state.toInt + 1) ∧
    List.Chain' (fun a b => b = a ∨ b.toInt = a.toInt + 1) (visitedStates T c call evs) ∧
    List.Pairwise (fun a b => a.toInt ≤ b.toInt) (visitedStates T c call evs) ∧
    (∀ pre post, visitedStates T c { uuid := u, state := stateNew } evs
        = pre ++ stateWaitingHangup :: post → statePlaying ∈ pre) := by
  refine ⟨handleCallEvent_state T c call ev, visitedStates_chain T evs c call,
    visitedStates_sorted T c call evs, ?_⟩
  intro pre post h
  obtain ⟨rest, hrest⟩ := visitedStates_head T c { uuid := u, state := stateNew } evs
  have hc := visitedStates_chain T evs c { uuid := u, state := stateNew }
  cases pre with
  | nil => rw [hrest] at h; simp at h
  | cons a pre =>
    rw [h] at hc
    have ha : a = stateNew := by
      rw [hrest] at h; simp at h; exact h.1.symm
    subst ha
    have := chain_playing_before_hangup pre stateNew post (by simp [callState.toInt]) hc
    simpa using this

/-! ## Transition table and commands -/

theorem grab_of_ok (rev : Event) (h : HasPrefix rev.Body "+OK" = true) :
    grabUuidFromOKBody rev = (FindString uuidRexp rev.Body, none) := by
  simp [grabUuidFromOKBody, h]

theorem grab_of_not_ok (rev : Event) (h : HasPrefix rev.Body "+OK" = false) :
    grabUuidFromOKBody rev = ("", some GoError.apiCommandNotOkay) := by
  simp [grabUuidFromOKBody, h]

theorem playAudio_ok (T : Transport) (hT : AlwaysOK T) (c : Connection) (call : inprogressCall)
    (ev : Event) :
    playAudio T c call ev =
      { call := { call with state := statePlaying },
        conn := { sent := c.sent ++ [playCommand call.uuid] }, abort := none } := by
  obtain ⟨rev, h1, h2⟩ := hT c.sent (playCommand call.uuid)
  simp [playAudio, Connection.Send, h1, grab_of_ok rev h2]

theorem scheduleHangup_ok (T : Transport) (hT : AlwaysOK T) (c : Connection)
    (call : inprogressCall) (ev : Event) :
    scheduleHangup T c call ev =
      { call := { call with state := stateWaitingHangup },
        conn := { sent := c.sent ++ [hangupCommand call.uuid] }, abort := none } := by
  obtain ⟨rev, h1, _⟩ := hT c.sent (hangupCommand call.uuid)
  simp [scheduleHangup, Connection.Send, h1]

theorem handleCallEvent_ok (T : Transport) (hT : AlwaysOK T) (c : Connection)
    (call : inprogressCall) (ev : Event) :
    (handleCallEvent T c call ev).abort = none ∧
    (handleCallEvent T c call ev).call.state = tableNext call.state ev := by
  obtain ⟨u, st⟩ := call
  cases st
  · simp only [handleCallEvent, handleEventNew, tableNext]
    by_cases h1 : ev.Get "Answer-State" = "ringing"
    · have : ¬ ev.Get "Answer-State" = "answered" := by rw [h1]; decide
      simp [h1]
    · by_cases h2 : ev.Get "Answer-State" = "answered"
      · simp [h1, h2, playAudio_ok T hT]
      · simp [h1, h2]
  · simp only [handleCallEvent, handleEventPlaying, tableNext]
    by_cases h1 : ev.Get "Event-Name" = "PLAYBACK_START"
    · simp [h1]
    · by_cases h2 : ev.Get "Event-Name" = "PLAYBACK_STOP"
      · simp [h1, h2, scheduleHangup_ok T hT]
      · simp [h1, h2]
  · simp only [handleCallEvent, handleEventWaitingHangup, tableNext]
    by_cases h1 : ev.Get "Channel-State" = "CS_DESTROY"
    · simp [h1]
    · simp [h1]
  · simp [handleCallEvent, tableNext]

theorem tableNext_local (st : callState) (ev ev1 : Event)
    (h : ∀ f, consultedField st = some f → ev1.Get f = ev.Get f) :
    tableNext st ev1 = tableNext st ev := by
  cases st <;> simp [tableNext, consultedField] at h ⊢ <;> simp [h]

/-- C2: when every command is answered with a reply beginning with `+OK`,
`handleCallEvent` does not abort and the next state is the one of the
transition table; it depends only on the field named for the current state,
and an event whose Channel-State is CS_DESTROY leaves a call in New or Playing
where it is unless it also carries that state's own trigger. -/
theorem handleCallEvent_follows_table (T : Transport) (hT : AlwaysOK T) (c : Connection)
    (call : inprogressCall) (ev : Event) :
    (handleCallEvent T c call ev).abort = none ∧
    (handleCallEvent T c call ev).call.state = tableNext call.state ev ∧
    (∀ ev1 : Event, (∀ f, consultedField call.state = some f → ev1.Get f = ev.Get f) →
      (handleCallEvent T c call ev1).call.state = (handleCallEvent T c call ev).call.state) ∧
    (ev.Get "Channel-State" = "CS_DESTROY" →
      (call.state = stateNew ∧ ev.Get "Answer-State" ≠ "answered" ∨
        call.state = statePlaying ∧ ev.Get "Event-Name" ≠ "PLAYBACK_STOP") →
      (handleCallEvent T c call ev).call.state = call.state) ∧
    (∀ u body, (handleCallEvent T c { uuid := u, state := stateNew }
        { Header := [("Unique-Id", u), ("Channel-State", "CS_DESTROY")], Body := body }).call.state
        = stateNew ∧
      (handleCallEvent T c { uuid := u, state := statePlaying }
        { Header := [("Unique-Id", u), ("Channel-State", "CS_DESTROY")], Body := body }).call.state
        = statePlaying) := by
  refine ⟨(handleCallEvent_ok T hT c call ev).1, (handleCallEvent_ok T hT c call ev).2, ?_, ?_, ?_⟩
  · intro ev1 h
    rw [(handleCallEvent_ok T hT c call ev).2, (handleCallEvent_ok T hT c call ev1).2]
    exact tableNext_local call.state ev ev1 h
  · intro _ h
    rw [(handleCallEvent_ok T hT c call ev).2]
    rcases h with ⟨h1, h2⟩ | ⟨h1, h2⟩ <;> simp [h1, h2, tableNext]
  · intro u body
    constructor
    · rw [(handleCallEvent_ok T hT c _ _).2]
      simp [tableNext, Event.Get, List.lookup]
    · rw [(handleCallEvent_ok T hT c _ _).2]
      simp [tableNext, Event.Get, List.lookup]

theorem okTransport_alwaysOK : AlwaysOK okTransport := by
  intro h cmd
  exact ⟨_, rfl, by decide⟩

theorem handleCallEvent_follows_table_witness :
    AlwaysOK okTransport ∧
    (handleCallEvent okTransport { sent := [] } { uuid := "u", state := stateNew }
      { Header := [("Answer-State", "answered")], Body := "" }).call.state = statePlaying :=
  ⟨okTransport_alwaysOK,
   (handleCallEvent_follows_table okTransport okTransport_alwaysOK { sent := [] }
      { uuid := "u", state := stateNew }
      { Header := [("Answer-State", "answered")], Body := "" }).2.1.trans (by decide)⟩

theorem playCommand_text (u : String) :
    playCommand u = "api uuid_broadcast " ++ u ++ " ivr-you_lose.wav aleg" := by
  simp only [playCommand, audioFile, String.append_assoc]
  rfl

theorem originateCommand_text :
    originateCommand = "api originate sofia/external/sip:18775437013@172.16.19.89:52173 &park" := by
  decide

theorem playAudio_sent (T : Transport) (c : Connection) (call : inprogressCall) (ev : Event) :
    (playAudio T c call ev).conn.sent = c.sent ++ [playCommand call.uuid] := by
  simp only [playAudio, Connection.Send]
  cases T c.sent (playCommand call.uuid) with
  | error e => rfl
  | ok rev =>
    simp only []
    split <;> rfl

theorem scheduleHangup_sent (T : Transport) (c : Connection) (call : inprogressCall)
    (ev : Event) :
    (scheduleHangup T c call ev).conn.sent = c.sent ++ [hangupCommand call.uuid] := by
  simp only [scheduleHangup, Connection.Send]
  cases T c.sent (hangupCommand call.uuid) <;> rfl

theorem newCall_sent (T : Transport) (c : Connection) :
    (newCall T c).2.sent = c.sent ++ [originateCommand] := by
  simp only [newCall, Connection.Send]
  cases T c.sent originateCommand with
  | error e => rfl
  | ok rev =>
    simp only []
    split <;> rfl

/-- C10: `handleCallEvent` appends to the log of sent commands exactly the
expected commands: the broadcast command in New on an answered event, the
scheduled-hangup command in Playing on PLAYBACK_STOP, nothing otherwise, so at
most one; `newCall` sends exactly the originate command. -/
theorem handleCallEvent_sends (T : Transport) (c : Connection) (call : inprogressCall)
    (ev : Event) :
    (handleCallEvent T c call ev).conn.sent = c.sent ++ expectedCommands call ev ∧
    (expectedCommands call ev).length ≤ 1 ∧
    (newCall T c).2.sent =
      c.sent ++ ["api originate sofia/external/sip:18775437013@172.16.19.89:52173 &park"] := by
  refine ⟨?_, ?_, ?_⟩
  · obtain ⟨u, st⟩ := call
    cases st
    · simp only [handleCallEvent, handleEventNew, expectedCommands]
      by_cases h1 : ev.Get "Answer-State" = "ringing"
      · have : ¬ ev.Get "Answer-State" = "answered" := by rw [h1]; decide
        simp [h1]
      · by_cases h2 : ev.Get "Answer-State" = "answered"
        · simp [h1, h2, playAudio_sent, playCommand_text]
        · simp [h1, h2]
    · simp only [handleCallEvent, handleEventPlaying, expectedCommands]
      by_cases h1 : ev.Get "Event-Name" = "PLAYBACK_START"
      · have : ¬ ev.Get "Event-Name" = "PLAYBACK_STOP" := by rw [h1]; decide
        simp [h1]
      · by_cases h2 : ev.Get "Event-Name" = "PLAYBACK_STOP"
        · simp [h1, h2, scheduleHangup_sent, hangupCommand]
        · simp [h1, h2]
    · simp only [handleCallEvent, handleEventWaitingHangup, expectedCommands]
      by_cases h1 : ev.Get "Channel-State" = "CS_DESTROY" <;> simp [h1]
    · simp [handleCallEvent, expectedCommands]
  · unfold expectedCommands
    (repeat' split) <;> simp
  · rw [newCall_sent, originateCommand_text]

/-! ## Registry -/

theorem mem_of_mapGet {m : Registry} {k : String} {v : inprogressCall}
    (h : mapGet m k = some v) : (k, v) ∈ m := by
  induction m with
  | nil => simp [mapGet, List.lookup] at h
  | cons e m ih =>
    obtain ⟨k1, v1⟩ := e
    simp only [mapGet, List.lookup] at h
    by_cases hk : k = k1
    · subst hk
      simp at h
      simp [h]
    · have : (k == k1) = false := by simpa using hk
      simp only [this] at h
      exact List.mem_cons_of_mem _ (ih h)

theorem mapGet_eq_none_iff {m : Registry} {k : String} :
    mapGet m k = none ↔ k ∉ mapKeys m := by
  induction m with
  | nil => simp [mapGet, mapKeys, List.lookup]
  | cons e m ih =>
    obtain ⟨k1, v1⟩ := e
    simp only [mapGet, List.lookup, mapKeys, List.map_cons, List.mem_cons, not_or]
    by_cases hk : k = k1
    · subst hk; simp
    · have : (k == k1) = false := by simpa using hk
      simp only [this]
      simp only [mapGet, mapKeys] at ih
      rw [ih]
      simp [hk]

theorem entry_unique {m : Registry} (hn : (mapKeys m).Nodup) {e1 e2 : String × inprogressCall}
    (h1 : e1 ∈ m) (h2 : e2 ∈ m) (hk : e1.1 = e2.1) : e1 = e2 :=
  List.inj_on_of_nodup_map hn h1 h2 hk

theorem mem_mapSet {k : String} {v : inprogressCall} {m : Registry}
    {e : String × inprogressCall} :
    e ∈ mapSet k v m → e = (k, v) ∨ e ∈ m := by
  induction m with
  | nil => simp [mapSet]
  | cons e1 m ih =>
    obtain ⟨k1, v1⟩ := e1
    simp only [mapSet]
    split
    · intro h
      rcases List.mem_cons.mp h with h | h
      · exact Or.inl h
      · exact Or.inr (List.mem_cons_of_mem _ h)
    · intro h
      rcases List.mem_cons.mp h with h | h
      · exact Or.inr (by simp [h])
      · rcases ih h with h | h
        · exact Or.inl h
        · exact Or.inr (List.mem_cons_of_mem _ h)

theorem mem_mapSet_self (k : String) (v : inprogressCall) (m : Registry) :
    (k, v) ∈ mapSet k v m := by
  induction m with
  | nil => simp [mapSet]
  | cons e1 m ih =>
    obtain ⟨k1, v1⟩ := e1
    simp only [mapSet]
    split
    · simp
    · exact List.mem_cons_of_mem _ ih

theorem mapKeys_mapSet (k : String) (v : inprogressCall) (m : Registry) :
    mapKeys (mapSet k v m) = if k ∈ mapKeys m then mapKeys m else mapKeys m ++ [k] := by
  induction m with
  | nil => simp [mapSet, mapKeys]
  | cons e1 m ih =>
    obtain ⟨k1, v1⟩ := e1
    simp only [mapSet]
    by_cases h1 : k1 = k
    · subst h1
      simp [mapKeys]
    · have h2 : ¬ k = k1 := fun h => h1 h.symm
      simp only [mapKeys] at ih
      simp only [h1, if_false, mapKeys, List.map_cons, List.mem_cons, h2, false_or, ih]
      split <;> simp

theorem nodup_mapSet {k : String} {v : inprogressCall} {m : Registry}
    (h : (mapKeys m).Nodup) : (mapKeys (mapSet k v m)).Nodup := by
  rw [mapKeys_mapSet]
  split
  · exact h
  · rename_i hk
    exact List.Nodup.append h (by simp) (by simpa using hk)

theorem mapKeys_filter_sublist (p : String × inprogressCall → Bool) (m : Registry) :
    (mapKeys (m.filter p)).Sublist (mapKeys m) :=
  List.Sublist.map _ (List.filter_sublist m)

theorem sweepStep_eq {m : Registry} (hk : KeysMatch m) (hn : (mapKeys m).Nodup) (k : String) :
    sweepStep m k = m.filter (fun e => !(decide (e.1 = k) && decide (e.2.state = stateDone))) := by
  unfold sweepStep
  cases hg : mapGet m k with
  | none =>
    have hnot := mapGet_eq_none_iff.mp hg
    symm
    rw [List.filter_eq_self]
    intro e he
    have : e.1 ≠ k := by
      intro h
      exact hnot (h ▸ List.mem_map_of_mem Prod.fst he)
    simp [this]
  | some call =>
    have hmem := mem_of_mapGet hg
    have hu : call.uuid = k := hk _ hmem
    simp only []
    split
    · rename_i hd
      rw [hu]
      unfold mapDelete
      apply List.filter_congr
      intro e he
      by_cases h : e.1 = k
      · have : e = (k, call) := entry_unique hn he hmem h
        simp [this, hd]
      · simp [h]
    · rename_i hd
      symm
      rw [List.filter_eq_self]
      intro e he
      by_cases h : e.1 = k
      · have : e = (k, call) := entry_unique hn he hmem h
        simp [this, hd]
      · simp [h]

theorem sweep_eq (order : List String) :
    ∀ {m : Registry}, KeysMatch m → (mapKeys m).Nodup →
      sweep order m =
        m.filter (fun e => !(decide (e.1 ∈ order) && decide (e.2.state = stateDone))) := by
  induction order with
  | nil =>
    intro m _ _
    simp [sweep]
  | cons k order ih =>
    intro m hk hn
    have h1 := sweepStep_eq hk hn k
    simp only [sweep, List.foldl_cons] at ih ⊢
    rw [h1]
    rw [ih (m := m.filter _)]
    · rw [List.filter_filter]
      apply List.filter_congr
      intro e _
      by_cases ha : e.1 = k <;> by_cases hb : e.1 ∈ order <;>
        by_cases hc : e.2.state = stateDone <;> simp [ha, hb, hc]
    · intro e he
      exact hk e (List.mem_of_mem_filter he)
    · exact List.Nodup.sublist (mapKeys_filter_sublist _ m) hn

theorem sweep_covering {order : List String} {m : Registry} (hk : KeysMatch m)
    (hn : (mapKeys m).Nodup) (hc : ∀ k ∈ mapKeys m, k ∈ order) :
    sweep order m = m.filter (fun e => !decide (e.2.state = stateDone)) := by
  rw [sweep_eq order hk hn]
  apply List.filter_congr
  intro e he
  have : e.1 ∈ order := hc _ (List.mem_map_of_mem Prod.fst he)
  simp [this]

theorem sweep_noDone (order : List String) {m : Registry} (h : NoDone m) :
    sweep order m = m := by
  induction order with
  | nil => rfl
  | cons k order ih =>
    simp only [sweep, List.foldl_cons] at ih ⊢
    have : sweepStep m k = m := by
      unfold sweepStep
      cases hg : mapGet m k with
      | none => rfl
      | some call =>
        have := h _ (mem_of_mapGet hg)
        simp only [] at this ⊢
        simp [this]
    rw [this, ih]

/-! ## Dispatch loop invariants -/

theorem string_length_eq_zero (s : String) : s.length = 0 ↔ s = "" := by
  obtain ⟨l⟩ := s
  cases l with
  | nil => simp [String.length]
  | cons a l =>
    simp only [String.length, List.length_cons]
    constructor
    · intro h; omega
    · intro h
      have := congrArg String.data h
      simp at this

theorem newCall_ok {T : Transport} {c c1 : Connection} {call : inprogressCall}
    (h : newCall T c = (Except.ok call, c1)) :
    call.state = stateNew ∧ c1.sent = c.sent ++ [originateCommand] ∧
    ∃ rev, T c.sent originateCommand = Except.ok rev ∧
      grabUuidFromOKBody rev = (call.uuid, none) := by
  simp only [newCall, Connection.Send] at h
  cases hT : T c.sent originateCommand with
  | error e => simp [hT] at h
  | ok rev =>
    simp only [hT] at h
    rcases hg : grabUuidFromOKBody rev with ⟨u, _ | e⟩
    · simp only [hg, Prod.mk.injEq, Except.ok.injEq] at h
      obtain ⟨h1, h2⟩ := h
      subst h1 h2
      exact ⟨rfl, rfl, rev, rfl, hg⟩
    · simp [hg] at h

theorem newCall_error {T : Transport} {c c1 : Connection} {a : Abort}
    (h : newCall T c = (Except.error a, c1)) :
    c1.sent = c.sent ++ [originateCommand] ∧
    ((∃ e, T c.sent originateCommand = Except.error e ∧ a = Abort.logFatal e) ∨
     (∃ rev u e, T c.sent originateCommand = Except.ok rev ∧
        grabUuidFromOKBody rev = (u, some e) ∧ a = Abort.logFatal e)) := by
  simp only [newCall, Connection.Send] at h
  cases hT : T c.sent originateCommand with
  | error e =>
    simp only [hT, Prod.mk.injEq, Except.error.injEq] at h
    exact ⟨h.2 ▸ rfl, Or.inl ⟨e, rfl, h.1.symm⟩⟩
  | ok rev =>
    simp only [hT] at h
    rcases hg : grabUuidFromOKBody rev with ⟨u, _ | e⟩
    · simp [hg] at h
    · simp only [hg, Prod.mk.injEq, Except.error.injEq] at h
      exact ⟨h.2 ▸ rfl, Or.inr ⟨rev, u, e, rfl, hg, h.1.symm⟩⟩

theorem eventCase_running {T : Transport} {s s1 : LoopState} {ev : Event}
    {order : List String} (h : eventCase T s ev order = Status.running s1) :
    ((ev.Get "Unique-Id").length = 0 ∧ s1 = s) ∨
    ((ev.Get "Unique-Id").length ≠ 0 ∧ mapGet s.calls (ev.Get "Unique-Id") = none ∧
      s1 = { s with calls := sweep order s.calls }) ∨
    (∃ call, (ev.Get "Unique-Id").length ≠ 0 ∧
      mapGet s.calls (ev.Get "Unique-Id") = some call ∧
      (handleCallEvent T s.conn call ev).abort = none ∧
      s1 = { s with
        calls := sweep order
          (mapSet (ev.Get "Unique-Id") (handleCallEvent T s.conn call ev).call s.calls),
        conn := (handleCallEvent T s.conn call ev).conn }) := by
  unfold eventCase at h
  simp only [] at h
  by_cases h0 : (ev.Get "Unique-Id").length = 0
  · simp only [h0, if_true, Status.running.injEq] at h
    exact Or.inl ⟨h0, h.symm⟩
  · simp only [h0, if_false] at h
    cases hg : mapGet s.calls (ev.Get "Unique-Id") with
    | none =>
      simp only [hg, Status.running.injEq] at h
      exact Or.inr (Or.inl ⟨h0, rfl, h.symm⟩)
    | some call =>
      simp only [hg] at h
      cases ha : (handleCallEvent T s.conn call ev).abort with
      | some a => simp [ha] at h
      | none =>
        simp only [ha, Status.running.injEq] at h
        exact Or.inr (Or.inr ⟨call, h0, rfl, ha, h.symm⟩)

theorem registryInv_nil : RegistryInv [] :=
  ⟨fun _ he => (nomatch he), List.nodup_nil, fun _ he => (nomatch he)⟩

theorem registryInv_mapSet {m : Registry} {k : String} {v : inprogressCall}
    (h : RegistryInv m) (hu : v.uuid = k) (hs : v.state ≠ stateDone) :
    RegistryInv (mapSet k v m) := by
  refine ⟨?_, nodup_mapSet h.nodup, ?_⟩
  · intro e he
    rcases mem_mapSet he with h1 | h1
    · rw [h1]; exact hu
    · exact h.keys e h1
  · intro e he
    rcases mem_mapSet he with h1 | h1
    · rw [h1]; exact hs
    · exact h.live e h1

theorem registryInv_filter {m : Registry} (hk : KeysMatch m) (hn : (mapKeys m).Nodup) :
    RegistryInv (m.filter (fun e => !decide (e.2.state = stateDone))) := by
  refine ⟨?_, List.Nodup.sublist (mapKeys_filter_sublist _ m) hn, ?_⟩
  · intro e he
    exact hk e (List.mem_of_mem_filter he)
  · intro e he
    have := (List.mem_filter.mp he).2
    simpa using this

theorem mapKeys_mapSet_of_mem {m : Registry} {k : String} {v v1 : inprogressCall}
    (h : mapGet m k = some v1) : mapKeys (mapSet k v m) = mapKeys m := by
  rw [mapKeys_mapSet]
  have : k ∈ mapKeys m := List.mem_map_of_mem Prod.fst (mem_of_mapGet h)
  simp [this]

theorem keysMatch_mapSet {m : Registry} {k : String} {v : inprogressCall}
    (h : KeysMatch m) (hu : v.uuid = k) : KeysMatch (mapSet k v m) := by
  intro e he
  rcases mem_mapSet he with h1 | h1
  · rw [h1]; exact hu
  · exact h e h1

theorem startup_inv {T : Transport} {totalCalls : Int} {s : LoopState}
    (h : startup T = Status.running s) : LoopInv totalCalls s := by
  unfold startup at h
  simp only [] at h
  split at h
  · simp at h
  · rename_i call c2 hn
    simp only [Status.running.injEq] at h
    subst h
    have := newCall_ok hn
    refine ⟨registryInv_mapSet registryInv_nil rfl (by rw [this.1]; decide),
      by simp, by simp, ?_⟩
    intro e he _
    rcases mem_mapSet he with h1 | h1
    · rw [h1]; exact this.1
    · cases h1

theorem step_inv {T : Transport} {totalCalls : Int} {s s1 : LoopState} (i : Input)
    (hs : LoopInv totalCalls s) (hf : i.fits s)
    (h : step T totalCalls s i = Status.running s1) : LoopInv totalCalls s1 := by
  cases i with
  | event ev order =>
    simp only [step] at h
    simp only [Input.fits] at hf
    rcases eventCase_running h with ⟨_, h1⟩ | ⟨_, _, h1⟩ | ⟨call, hlen, hg, _, h1⟩
    · rw [h1]; exact hs
    · rw [h1, sweep_noDone order hs.reg.live]
      exact hs
    · subst h1
      have hmem := mem_of_mapGet hg
      have hu : (handleCallEvent T s.conn call ev).call.uuid = ev.Get "Unique-Id" := by
        rw [handleCallEvent_uuid]
        exact hs.reg.keys _ hmem
      have hk := keysMatch_mapSet (v := (handleCallEvent T s.conn call ev).call) hs.reg.keys hu
      have hn : (mapKeys (mapSet (ev.Get "Unique-Id")
          (handleCallEvent T s.conn call ev).call s.calls)).Nodup := nodup_mapSet hs.reg.nodup
      have hc : ∀ k ∈ mapKeys (mapSet (ev.Get "Unique-Id")
          (handleCallEvent T s.conn call ev).call s.calls), k ∈ order := by
        intro k hk1
        rw [mapKeys_mapSet_of_mem hg] at hk1
        exact hf.mem_iff.mpr hk1
      refine ⟨?_, hs.pos, hs.le, ?_⟩
      · simp only []
        rw [sweep_covering hk hn hc]
        exact registryInv_filter hk hn
      · simp only []
        rw [sweep_covering hk hn hc]
        intro e he he0
        rcases mem_mapSet (List.mem_of_mem_filter he) with h1 | h1
        · rw [h1] at he0
          simp only [] at he0
          rw [he0] at hlen
          exact absurd rfl hlen
        · exact hs.emptyNew e h1 he0
  | tick =>
    simp only [step, tickCase] at h
    split at h
    · rename_i hlt
      split at h
      · simp at h
      · rename_i call c1 hn
        split at h
        · simp at h
        · simp only [Status.running.injEq] at h
          subst h
          have := newCall_ok hn
          refine ⟨registryInv_mapSet hs.reg rfl (by rw [this.1]; decide), ?_, ?_, ?_⟩
          · simp only []; have := hs.pos; omega
          · simp only []
            have := hs.le
            exact le_max_of_le_right (by omega)
          · intro e he he0
            rcases mem_mapSet he with h1 | h1
            · rw [h1]; exact this.1
            · exact hs.emptyNew e h1 he0
    · split at h
      · simp at h
      · simp only [Status.running.injEq] at h
        subst h
        exact hs

theorem reachable_inv {T : Transport} {totalCalls : Int} {s : LoopState}
    (h : Reachable T totalCalls s) : LoopInv totalCalls s := by
  induction h with
  | start h0 => exact startup_inv h0
  | next i _ hf hstep ih => exact step_inv i ih hf hstep

/-! ## A sample run -/

theorem sampleStart_reachable (totalCalls : Int) :
    Reachable sampleTransport totalCalls sampleStart :=
  Reachable.start (by decide)

theorem samplePlaying_reachable (totalCalls : Int) :
    Reachable sampleTransport totalCalls samplePlaying :=
  Reachable.next (Input.event sampleAnswered [sampleUuid]) (sampleStart_reachable totalCalls)
    (List.Perm.refl _)
    (by simp only [step]; decide)

theorem sampleWaiting_reachable (totalCalls : Int) :
    Reachable sampleTransport totalCalls sampleWaiting :=
  Reachable.next (Input.event samplePlaybackStop [sampleUuid])
    (samplePlaying_reachable totalCalls) (List.Perm.refl _)
    (by simp only [step]; decide)

theorem sampleFinished_reachable (totalCalls : Int) :
    Reachable sampleTransport totalCalls sampleFinished :=
  Reachable.next (Input.event sampleDestroy [sampleUuid])
    (sampleWaiting_reachable totalCalls) (List.Perm.refl _)
    (by simp only [step]; decide)

/-! ## Unroutable events -/

theorem eventCase_unroutable {T : Transport} {s : LoopState} (hl : NoDone s.calls)
    (ev : Event) (order : List String)
    (hu : (ev.Get "Unique-Id").length = 0 ∨ mapGet s.calls (ev.Get "Unique-Id") = none) :
    eventCase T s ev order = Status.running s := by
  unfold eventCase
  simp only []
  by_cases h0 : (ev.Get "Unique-Id").length = 0
  · simp [h0]
  · rcases hu with hu | hu
    · exact absurd hu h0
    · simp only [h0, if_false, hu, sweep_noDone order hl]

theorem get_of_absent {ev : Event} {key : String} (h : ev.Header.lookup key = none) :
    ev.Get key = "" := by
  simp [Event.Get, h]

/-- C3: in a reachable loop state, an event whose Unique-Id field is absent or
empty, or is not a key of the registry, leaves the loop state as it is: same
registry, same counter, same log of sent commands. -/
theorem unroutable_event_ignored (T : Transport) (totalCalls : Int) (s : LoopState)
    (hs : Reachable T totalCalls s) (ev : Event) (order : List String)
    (hu : ev.Header.lookup "Unique-Id" = none ∨ ev.Get "Unique-Id" = "" ∨
      ev.Get "Unique-Id" ∉ mapKeys s.calls) :
    eventCase T s ev order = Status.running s ∧
    (∀ s1, eventCase T s ev order = Status.running s1 →
      s1.calls = s.calls ∧ s1.conn.sent = s.conn.sent) := by
  have h1 : eventCase T s ev order = Status.running s := by
    apply eventCase_unroutable (reachable_inv hs).reg.live
    rcases hu with hu | hu | hu
    · exact Or.inl ((string_length_eq_zero _).mpr (get_of_absent hu))
    · exact Or.inl ((string_length_eq_zero _).mpr hu)
    · exact Or.inr (mapGet_eq_none_iff.mpr hu)
  refine ⟨h1, ?_⟩
  intro s1 h2
  rw [h1] at h2
  cases h2
  exact ⟨rfl, rfl⟩

theorem unroutable_event_ignored_witness :
    Reachable sampleTransport 10 samplePlaying ∧
    eventCase sampleTransport samplePlaying
      { Header := [("Unique-Id", "ffffffff-0000-0000-0000-000000000000"),
          ("Event-Name", "PLAYBACK_STOP")], Body := "" } [sampleUuid]
      = Status.running samplePlaying :=
  ⟨samplePlaying_reachable 10,
   (unroutable_event_ignored sampleTransport 10 samplePlaying (samplePlaying_reachable 10)
      { Header := [("Unique-Id", "ffffffff-0000-0000-0000-000000000000"),
          ("Event-Name", "PLAYBACK_STOP")], Body := "" } [sampleUuid]
      (Or.inr (Or.inr (by decide)))).1⟩

/-! ## Steps of the loop -/

theorem playCommand_ne_originate (u : String) : playCommand u ≠ originateCommand := by
  intro h
  have := congrArg String.data h
  simp [playCommand, originateCommand, callToAddress, audioFile] at this

theorem hangupCommand_ne_originate (u : String) : hangupCommand u ≠ originateCommand := by
  intro h
  have := congrArg String.data h
  simp [hangupCommand, originateCommand, callToAddress] at this

theorem handleCallEvent_sent_cases (T : Transport) (c : Connection) (call : inprogressCall)
    (ev : Event) :
    (handleCallEvent T c call ev).conn.sent = c.sent ∨
    (handleCallEvent T c call ev).conn.sent = c.sent ++ [playCommand call.uuid] ∨
    (handleCallEvent T c call ev).conn.sent = c.sent ++ [hangupCommand call.uuid] := by
  obtain ⟨u, st⟩ := call
  cases st
  · simp only [handleCallEvent, handleEventNew]
    split
    · exact Or.inl rfl
    · split
      · exact Or.inr (Or.inl (playAudio_sent T c _ ev))
      · exact Or.inl rfl
  · simp only [handleCallEvent, handleEventPlaying]
    split
    · exact Or.inl rfl
    · split
      · exact Or.inr (Or.inr (scheduleHangup_sent T c _ ev))
      · exact Or.inl rfl
  · simp only [handleCallEvent, handleEventWaitingHangup]
    split <;> exact Or.inl rfl
  · exact Or.inl rfl

theorem handleCallEvent_done {T : Transport} {c : Connection} {call : inprogressCall}
    {ev : Event} (hd : (handleCallEvent T c call ev).call.state = stateDone)
    (hn : call.state ≠ stateDone) :
    call.state = stateWaitingHangup ∧
    handleCallEvent T c call ev =
      { call := { call with state := stateDone }, conn := c, abort := none } := by
  obtain ⟨u, st⟩ := call
  cases st
  · exfalso
    have := handleCallEvent_state T c { uuid := u, state := stateNew } ev
    rw [hd] at this
    simp [stepsForward, callState.toInt] at this
  · exfalso
    have := handleCallEvent_state T c { uuid := u, state := statePlaying } ev
    rw [hd] at this
    simp [stepsForward, callState.toInt] at this
  · refine ⟨rfl, ?_⟩
    simp only [handleCallEvent, handleEventWaitingHangup] at hd ⊢
    split
    · rfl
    · rename_i h
      simp [h] at hd
  · exact absurd rfl hn

theorem tickCase_running {T : Transport} {totalCalls : Int} {s s1 : LoopState}
    (h : tickCase T totalCalls s = Status.running s1) :
    (s.callsCount < totalCalls ∧ ∃ call c1, newCall T s.conn = (Except.ok call, c1) ∧
      s1 = { calls := mapSet call.uuid call s.calls, callsCount := s.callsCount + 1,
             conn := c1 }) ∨
    (¬ s.callsCount < totalCalls ∧ s1 = s) := by
  simp only [tickCase] at h
  split at h
  · rename_i hlt
    split at h
    · simp at h
    · rename_i call c1 hn
      split at h
      · simp at h
      · simp only [Status.running.injEq] at h
        exact Or.inl ⟨hlt, call, c1, hn, h.symm⟩
  · rename_i hlt
    split at h
    · simp at h
    · simp only [Status.running.injEq] at h
      exact Or.inr ⟨hlt, h.symm⟩

theorem mapSet_ne_nil (k : String) (v : inprogressCall) (m : Registry) :
    mapSet k v m ≠ [] := by
  intro h
  have := mem_mapSet_self k v m
  rw [h] at this
  cases this

theorem tickCase_exited {T : Transport} {totalCalls : Int} {s s1 : LoopState}
    (h : tickCase T totalCalls s = Status.exited s1) :
    ¬ s.callsCount < totalCalls ∧ s1 = s ∧ s.calls = [] := by
  simp only [tickCase] at h
  split at h
  · split at h
    · simp at h
    · rename_i call c1 hn
      split at h
      · rename_i hl
        exact absurd (List.length_eq_zero.mp hl) (mapSet_ne_nil _ _ _)
      · simp at h
  · rename_i hlt
    split at h
    · rename_i hl
      simp only [Status.exited.injEq] at h
      exact ⟨hlt, h.symm, List.length_eq_zero.mp hl⟩
    · simp at h

theorem eventCase_not_exited {T : Transport} {s s1 : LoopState} {ev : Event}
    {order : List String} : eventCase T s ev order ≠ Status.exited s1 := by
  unfold eventCase
  simp only []
  intro h
  split at h
  · simp at h
  · split at h
    · split at h <;> simp at h
    · simp at h

theorem sweep_keys_subset (order : List String) :
    ∀ (m : Registry), ∀ k ∈ mapKeys (sweep order m), k ∈ mapKeys m := by
  induction order with
  | nil => intro m k hk; exact hk
  | cons a order ih =>
    intro m k hk
    simp only [sweep, List.foldl_cons] at hk ih
    have h1 := ih (sweepStep m a) k hk
    unfold sweepStep at h1
    split at h1
    · split at h1
      · exact (mapKeys_filter_sublist _ m).subset h1
      · exact h1
    · exact h1

theorem step_sent_extends {T : Transport} {totalCalls : Int} {s s1 : LoopState} {i : Input}
    (h : step T totalCalls s i = Status.running s1) : s.conn.sent <+: s1.conn.sent := by
  cases i with
  | event ev order =>
    simp only [step] at h
    rcases eventCase_running h with ⟨_, h1⟩ | ⟨_, _, h1⟩ | ⟨call, _, _, _, h1⟩
    · rw [h1]
    · rw [h1]
    · rw [h1]
      simp only []
      rcases handleCallEvent_sent_cases T s.conn call ev with h2 | h2 | h2 <;> rw [h2]
      · exact List.prefix_append _ _
      · exact List.prefix_append _ _
  | tick =>
    simp only [step] at h
    rcases tickCase_running h with ⟨_, call, c1, hn, h1⟩ | ⟨_, h1⟩
    · rw [h1]
      simp only []
      rw [(newCall_ok hn).2.1]
      exact List.prefix_append _ _
    · rw [h1]

theorem step_absent {T : Transport} {totalCalls : Int} {s s1 : LoopState} {i : Input}
    {u : String} (h : step T totalCalls s i = Status.running s1)
    (ha : u ∉ mapKeys s.calls) (hfresh : NotReissued T s.conn.sent u) :
    u ∉ mapKeys s1.calls := by
  cases i with
  | event ev order =>
    simp only [step] at h
    rcases eventCase_running h with ⟨_, h1⟩ | ⟨_, _, h1⟩ | ⟨call, _, hg, _, h1⟩
    · rw [h1]; exact ha
    · rw [h1]
      intro hk
      exact ha (sweep_keys_subset order _ u hk)
    · rw [h1]
      intro hk
      have := sweep_keys_subset order _ u hk
      rw [mapKeys_mapSet_of_mem hg] at this
      exact ha this
  | tick =>
    simp only [step] at h
    rcases tickCase_running h with ⟨_, call, c1, hn, h1⟩ | ⟨_, h1⟩
    · rw [h1]
      simp only []
      obtain ⟨_, _, rev, hT, hgr⟩ := newCall_ok hn
      have hne := hfresh s.conn.sent rev (List.prefix_refl _) hT
      rw [hgr] at hne
      rw [mapKeys_mapSet]
      split
      · exact ha
      · intro hk
        rcases List.mem_append.mp hk with hk | hk
        · exact ha hk
        · simp only [List.mem_singleton] at hk
          exact hne hk.symm
    · rw [h1]; exact ha

theorem notReissued_mono {T : Transport} {sent sent1 : List String} {u : String}
    (h : NotReissued T sent u) (hp : sent <+: sent1) : NotReissued T sent1 u :=
  fun hist rev hpre hT => h hist rev (List.IsPrefix.trans hp hpre) hT

theorem reachableFrom_absent {T : Transport} {totalCalls : Int} {s1 s2 : LoopState}
    {u : String} (hr : ReachableFrom T totalCalls s1 s2) (hi : LoopInv totalCalls s1)
    (ha : u ∉ mapKeys s1.calls) (hfresh : NotReissued T s1.conn.sent u) :
    LoopInv totalCalls s2 ∧ s1.conn.sent <+: s2.conn.sent ∧ u ∉ mapKeys s2.calls := by
  induction hr with
  | refl => exact ⟨hi, List.prefix_refl _, ha⟩
  | next i _ hf hstep ih =>
    obtain ⟨h1, h2, h3⟩ := ih
    exact ⟨step_inv i h1 hf hstep, List.IsPrefix.trans h2 (step_sent_extends hstep),
      step_absent hstep h3 (notReissued_mono hfresh h2)⟩

/-! ## Terminated calls leave the registry -/

/-- C4: in a reachable loop state, an event dispatched to a registered call
which drives it into Done is followed, within the same dispatch cycle, by the
removal of that call; no reachable loop-head state registers a call in Done;
and as long as the switch does not hand the identifier out again, every later
event bearing it finds no call and leaves the loop state as it is. -/
theorem done_call_removed (T : Transport) (totalCalls : Int) (s : LoopState)
    (hs : Reachable T totalCalls s) (ev : Event) (order : List String)
    (hf : order.Perm (mapKeys s.calls)) (call : inprogressCall)
    (hg : mapGet s.calls (ev.Get "Unique-Id") = some call)
    (hd : (handleCallEvent T s.conn call ev).call.state = stateDone) :
    (∃ s1, eventCase T s ev order = Status.running s1 ∧
      mapGet s1.calls (ev.Get "Unique-Id") = none ∧
      s1.conn.sent = s.conn.sent ∧
      (∀ s2, ReachableFrom T totalCalls s1 s2 →
        NotReissued T s1.conn.sent (ev.Get "Unique-Id") →
        ∀ (ev1 : Event) (order1 : List String),
          ev1.Get "Unique-Id" = ev.Get "Unique-Id" →
          mapGet s2.calls (ev1.Get "Unique-Id") = none ∧
          eventCase T s2 ev1 order1 = Status.running s2)) ∧
    (∀ s3, Reachable T totalCalls s3 →
      ∀ k c3, mapGet s3.calls k = some c3 → c3.state ≠ stateDone) := by
  have hi := reachable_inv hs
  have hmem := mem_of_mapGet hg
  have hnd : call.state ≠ stateDone := hi.reg.live _ hmem
  obtain ⟨hw, hr⟩ := handleCallEvent_done hd hnd
  have hlen : (ev.Get "Unique-Id").length ≠ 0 := by
    intro h0
    have := hi.emptyNew _ hmem ((string_length_eq_zero _).mp h0)
    rw [hw] at this
    cases this
  have hr1 : handleCallEvent T s.conn call ev =
      HandlerResult.mk (inprogressCall.mk call.uuid stateDone) s.conn none := hr
  have hstep : eventCase T s ev order = Status.running
      (LoopState.mk (sweep order (mapSet (ev.Get "Unique-Id")
        (inprogressCall.mk call.uuid stateDone) s.calls)) s.callsCount s.conn) := by
    unfold eventCase
    simp only [hlen, if_false, hg, hr1]
  have hu : (inprogressCall.mk call.uuid stateDone).uuid = ev.Get "Unique-Id" :=
    hi.reg.keys _ hmem
  have hk := keysMatch_mapSet (v := inprogressCall.mk call.uuid stateDone) hi.reg.keys hu
  have hn : (mapKeys (mapSet (ev.Get "Unique-Id") (inprogressCall.mk call.uuid stateDone)
      s.calls)).Nodup := nodup_mapSet hi.reg.nodup
  have hc : ∀ k ∈ mapKeys (mapSet (ev.Get "Unique-Id")
      (inprogressCall.mk call.uuid stateDone) s.calls), k ∈ order := by
    intro k hk1
    rw [mapKeys_mapSet_of_mem hg] at hk1
    exact hf.mem_iff.mpr hk1
  have hgone : ev.Get "Unique-Id" ∉ mapKeys (sweep order
      (mapSet (ev.Get "Unique-Id") (inprogressCall.mk call.uuid stateDone) s.calls)) := by
    rw [sweep_covering hk hn hc]
    intro hin
    obtain ⟨e, he, hek⟩ := List.mem_map.mp hin
    have he1 := List.mem_filter.mp he
    have := entry_unique hn he1.1 (mem_mapSet_self _ _ _) hek
    rw [this] at he1
    simp at he1
  have hi1 : LoopInv totalCalls (LoopState.mk (sweep order (mapSet (ev.Get "Unique-Id")
      (inprogressCall.mk call.uuid stateDone) s.calls)) s.callsCount s.conn) :=
    step_inv (Input.event ev order) hi hf hstep
  refine ⟨⟨_, hstep, mapGet_eq_none_iff.mpr hgone, rfl, ?_⟩, ?_⟩
  · intro s2 hr2 hfresh ev1 order1 hev
    obtain ⟨hi2, _, habs⟩ := reachableFrom_absent hr2 hi1 hgone hfresh
    rw [hev]
    exact ⟨mapGet_eq_none_iff.mpr habs,
      eventCase_unroutable hi2.reg.live ev1 order1
        (Or.inr (by rw [hev]; exact mapGet_eq_none_iff.mpr habs))⟩
  · intro s3 hs3 k c3 hg3
    exact (reachable_inv hs3).reg.live _ (mem_of_mapGet hg3)

theorem sampleTransport_notReissued :
    NotReissued sampleTransport sampleFinished.conn.sent sampleUuid := by
  intro hist rev hpre hT
  have hl : 4 ≤ hist.length := hpre.length_le
  have hc : ¬ hist.length ≤ 1 := by omega
  simp only [sampleTransport, hc, and_false, if_false, Except.ok.injEq] at hT
  rw [← hT]
  decide

theorem done_call_removed_witness :
    Reachable sampleTransport 1 sampleWaiting ∧
    eventCase sampleTransport sampleWaiting sampleDestroy [sampleUuid]
      = Status.running sampleFinished ∧
    mapGet sampleFinished.calls sampleUuid = none ∧
    eventCase sampleTransport sampleFinished sampleDestroy []
      = Status.running sampleFinished := by
  obtain ⟨⟨s1, h1, h2, _, h4⟩, _⟩ :=
    done_call_removed sampleTransport 1 sampleWaiting (sampleWaiting_reachable 1)
      sampleDestroy [sampleUuid] (List.Perm.refl _)
      { uuid := sampleUuid, state := stateWaitingHangup } (by decide) (by decide)
  have he : eventCase sampleTransport sampleWaiting sampleDestroy [sampleUuid]
      = Status.running sampleFinished := by decide
  have hs1 : s1 = sampleFinished := by
    rw [he] at h1
    cases h1
    rfl
  subst hs1
  exact ⟨sampleWaiting_reachable 1, he, h2,
    (h4 sampleFinished ReachableFrom.refl sampleTransport_notReissued sampleDestroy [] rfl).2⟩

/-! ## The ramp -/

/-- C5 fails for a configured total below one: the initial call is created
whatever the total. -/
theorem created_calls_exceed_zero_total :
    Reachable sampleTransport 0 sampleStart ∧ ¬ sampleStart.callsCount ≤ 0 :=
  ⟨sampleStart_reachable 0, by decide⟩

theorem step_count_bounds {T : Transport} {totalCalls : Int} {s s1 : LoopState} {i : Input}
    (hp : 1 ≤ s.callsCount) (hl : s.callsCount ≤ max 1 totalCalls)
    (h : step T totalCalls s i = Status.running s1 ∨ step T totalCalls s i = Status.exited s1) :
    1 ≤ s1.callsCount ∧ s1.callsCount ≤ max 1 totalCalls := by
  cases i with
  | event ev order =>
    simp only [step] at h
    rcases h with h | h
    · rcases eventCase_running h with ⟨_, h1⟩ | ⟨_, _, h1⟩ | ⟨call, _, _, _, h1⟩ <;>
        rw [h1] <;> exact ⟨hp, hl⟩
    · exact absurd h eventCase_not_exited
  | tick =>
    simp only [step] at h
    rcases h with h | h
    · rcases tickCase_running h with ⟨hlt, call, c1, _, h1⟩ | ⟨_, h1⟩
      · rw [h1]
        simp only []
        exact ⟨by omega, le_max_of_le_right (by omega)⟩
      · rw [h1]; exact ⟨hp, hl⟩
    · obtain ⟨_, h1, _⟩ := tickCase_exited h
      rw [h1]; exact ⟨hp, hl⟩

theorem reachable_created {T : Transport} {totalCalls : Int} {s : LoopState}
    (h : Reachable T totalCalls s) :
    (s.conn.sent.count originateCommand : Int) = s.callsCount := by
  induction h with
  | start h0 =>
    unfold startup at h0
    simp only [Connection.Send] at h0
    split at h0
    · simp at h0
    · rename_i call c2 hn
      simp only [Status.running.injEq] at h0
      subst h0
      simp only []
      rw [(newCall_ok hn).2.1]
      have : ("events json ALL" == originateCommand) = false := by decide
      simp [List.count_cons, this]
  | next i _ hf hstep ih =>
    cases i with
    | event ev order =>
      simp only [step] at hstep
      rcases eventCase_running hstep with ⟨_, h1⟩ | ⟨_, _, h1⟩ | ⟨call, _, _, _, h1⟩
      · rw [h1]; exact ih
      · rw [h1]; exact ih
      · rw [h1]
        simp only []
        rcases handleCallEvent_sent_cases T _ call ev with h2 | h2 | h2 <;> rw [h2]
        · exact ih
        · rw [List.count_append, List.count_singleton]
          have : (playCommand call.uuid == originateCommand) = false := by
            simpa using playCommand_ne_originate call.uuid
          simpa [this] using ih
        · rw [List.count_append, List.count_singleton]
          have : (hangupCommand call.uuid == originateCommand) = false := by
            simpa using hangupCommand_ne_originate call.uuid
          simpa [this] using ih
    | tick =>
      simp only [step] at hstep
      rcases tickCase_running hstep with ⟨_, call, c1, hn, h1⟩ | ⟨_, h1⟩
      · rw [h1]
        simp only []
        rw [(newCall_ok hn).2.1, List.count_append, List.count_singleton]
        simp only [beq_self_eq_true, if_true]
        push_cast
        omega
      · rw [h1]; exact ih

/-- C5, amended: for a configured total of at least one, the counter of
created calls never exceeds the total, at every reachable loop head and in
the state any further step of the loop ends in; whatever the total, the
counter is at least one, at most the larger of one and the total, and equal
to the number of originate commands sent so far. -/
theorem created_calls_bounded (T : Transport) (totalCalls : Int) (s : LoopState)
    (ht : 1 ≤ totalCalls) (hs : Reachable T totalCalls s) :
    s.callsCount ≤ totalCalls ∧
    (∀ i s1, (step T totalCalls s i = Status.running s1 ∨
        step T totalCalls s i = Status.exited s1) → s1.callsCount ≤ totalCalls) ∧
    (∀ (total0 : Int) (s0 : LoopState), Reachable T total0 s0 →
      1 ≤ s0.callsCount ∧ s0.callsCount ≤ max 1 total0 ∧
      (s0.conn.sent.count originateCommand : Int) = s0.callsCount) := by
  have hi := reachable_inv hs
  have hm : max 1 totalCalls = totalCalls := max_eq_right ht
  refine ⟨hm ▸ hi.le, ?_, ?_⟩
  · intro i s1 h
    have := (step_count_bounds hi.pos hi.le h).2
    rwa [hm] at this
  · intro total0 s0 h0
    exact ⟨(reachable_inv h0).pos, (reachable_inv h0).le, reachable_created h0⟩

theorem created_calls_bounded_witness :
    (1 : Int) ≤ 1 ∧ Reachable sampleTransport 1 sampleFinished ∧
    sampleFinished.callsCount ≤ 1 :=
  ⟨by decide, sampleFinished_reachable 1,
   (created_calls_bounded sampleTransport 1 sampleFinished (by decide)
      (sampleFinished_reachable 1)).1⟩

/-- C6 fails for a configured total below one: the loop returns with the
counter at one. -/
theorem normal_exit_with_zero_total :
    Reachable sampleTransport 0 sampleFinished ∧
    step sampleTransport 0 sampleFinished Input.tick = Status.exited sampleFinished ∧
    sampleFinished.callsCount ≠ 0 :=
  ⟨sampleFinished_reachable 0, by decide, by decide⟩

/-- C6, amended: for a configured total of at least one, whenever a step of
the loop from a reachable state returns normally, it is a tick, the counter
of created calls equals the total and the registry is empty; whatever the
total, the registry is empty and the counter is the larger of one and the
total. -/
theorem normal_exit_complete (T : Transport) (totalCalls : Int) (s s1 : LoopState)
    (i : Input) (ht : 1 ≤ totalCalls) (hs : Reachable T totalCalls s)
    (h : step T totalCalls s i = Status.exited s1) :
    i = Input.tick ∧ s1.callsCount = totalCalls ∧ s1.calls = [] ∧
    (∀ (total0 : Int) (s0 s2 : LoopState) (j : Input), Reachable T total0 s0 →
      step T total0 s0 j = Status.exited s2 →
      s2.callsCount = max 1 total0 ∧ s2.calls = []) := by
  have key : ∀ (total0 : Int) (s0 s2 : LoopState) (j : Input), Reachable T total0 s0 →
      step T total0 s0 j = Status.exited s2 →
      j = Input.tick ∧ s2.callsCount = max 1 total0 ∧ s2.calls = [] := by
    intro total0 s0 s2 j h0 hj
    have hi := reachable_inv h0
    cases j with
    | event ev order => exact absurd hj eventCase_not_exited
    | tick =>
      simp only [step] at hj
      obtain ⟨hge, h1, h2⟩ := tickCase_exited hj
      subst h1
      refine ⟨rfl, ?_, h2⟩
      have hp := hi.pos
      have hl := hi.le
      rcases le_total 1 total0 with h3 | h3
      · rw [max_eq_right h3] at hl ⊢; omega
      · rw [max_eq_left h3] at hl ⊢; omega
  obtain ⟨h1, h2, h3⟩ := key totalCalls s s1 i hs h
  refine ⟨h1, ?_, h3, ?_⟩
  · rw [h2, max_eq_right ht]
  · intro total0 s0 s2 j h0 hj
    exact (key total0 s0 s2 j h0 hj).2

theorem normal_exit_complete_witness :
    (1 : Int) ≤ 1 ∧ Reachable sampleTransport 1 sampleFinished ∧
    step sampleTransport 1 sampleFinished Input.tick = Status.exited sampleFinished ∧
    sampleFinished.callsCount = 1 ∧ sampleFinished.calls = [] :=
  ⟨by decide, sampleFinished_reachable 1, by decide,
   (normal_exit_complete sampleTransport 1 sampleFinished sampleFinished Input.tick
      (by decide) (sampleFinished_reachable 1) (by decide)).2.1,
   (normal_exit_complete sampleTransport 1 sampleFinished sampleFinished Input.tick
      (by decide) (sampleFinished_reachable 1) (by decide)).2.2.1⟩

/-! ## Leftmost match -/

theorem matchHere_length {re : List ReAtom} :
    ∀ {s : List Char}, matchHere re s = true → re.length ≤ s.length := by
  induction re with
  | nil => intro s _; simp
  | cons a re ih =>
    intro s h
    cases s with
    | nil => simp [matchHere] at h
    | cons c cs =>
      simp only [matchHere, Bool.and_eq_true] at h
      have := ih h.2
      simp only [List.length_cons]
      omega

theorem matchHere_take {re : List ReAtom} :
    ∀ {s : List Char}, matchHere re s = true → matchHere re (s.take re.length) = true := by
  induction re with
  | nil => intro s _; simp [matchHere]
  | cons a re ih =>
    intro s h
    cases s with
    | nil => simp [matchHere] at h
    | cons c cs =>
      simp only [matchHere, Bool.and_eq_true] at h
      simp only [List.length_cons, List.take_succ_cons, matchHere, Bool.and_eq_true]
      exact ⟨h.1, ih h.2⟩

theorem matchHere_append {re : List ReAtom} :
    ∀ {a : List Char} (b : List Char), matchHere re a = true →
      matchHere re (a ++ b) = true := by
  induction re with
  | nil => intro a b _; simp [matchHere]
  | cons x re ih =>
    intro a b h
    cases a with
    | nil => simp [matchHere] at h
    | cons c cs =>
      simp only [matchHere, Bool.and_eq_true] at h
      simp only [List.cons_append, matchHere, Bool.and_eq_true]
      exact ⟨h.1, ih b h.2⟩

theorem findFrom_some {re : List ReAtom} :
    ∀ {s m : List Char}, findFrom re s = some m →
      ∃ pre post, s = pre ++ m ++ post ∧ matchHere re m = true ∧ m.length = re.length ∧
        ∀ pre2 rest2, s = pre2 ++ rest2 → matchHere re rest2 = true →
          pre.length ≤ pre2.length := by
  intro s
  induction s with
  | nil =>
    intro m h
    simp only [findFrom] at h
    split at h
    · rename_i hm
      simp only [Option.some.injEq] at h
      subst h
      have := matchHere_length hm
      refine ⟨[], [], rfl, hm, ?_, ?_⟩
      · simp only [List.length_nil] at this ⊢; omega
      · intro pre2 rest2 _ _; simp
    · simp at h
  | cons c cs ih =>
    intro m h
    simp only [findFrom] at h
    split at h
    · rename_i hm
      simp only [Option.some.injEq] at h
      subst h
      refine ⟨[], (c :: cs).drop re.length, ?_, matchHere_take hm, ?_, ?_⟩
      · simp
      · rw [List.length_take]
        exact Nat.min_eq_left (matchHere_length hm)
      · intro pre2 rest2 _ _; simp
    · rename_i hm
      obtain ⟨pre, post, h1, h2, h3, h4⟩ := ih h
      refine ⟨c :: pre, post, by simp [h1], h2, h3, ?_⟩
      intro pre2 rest2 h5 h6
      cases pre2 with
      | nil =>
        simp only [List.nil_append] at h5
        rw [← h5] at h6
        exact absurd h6 hm
      | cons d pre2 =>
        simp only [List.cons_append, List.cons.injEq] at h5
        have := h4 pre2 rest2 h5.2 h6
        simp only [List.length_cons]
        omega

theorem findFrom_isSome {re : List ReAtom} :
    ∀ {s : List Char} (pre rest : List Char), s = pre ++ rest → matchHere re rest = true →
      ∃ m, findFrom re s = some m := by
  intro s
  induction s with
  | nil =>
    intro pre rest h hm
    have hr : rest = [] := by
      cases pre with
      | nil => simpa using h.symm
      | cons _ _ => simp at h
    subst hr
    exact ⟨[], by simp [findFrom, hm]⟩
  | cons c cs ih =>
    intro pre rest h hm
    simp only [findFrom]
    split
    · exact ⟨_, rfl⟩
    · rename_i hn
      cases pre with
      | nil =>
        simp only [List.nil_append] at h
        rw [← h] at hm
        exact absurd hm hn
      | cons d pre =>
        simp only [List.cons_append, List.cons.injEq] at h
        exact ih pre rest h.2 hm

/-! ## Hexadecimal tokens are word tokens -/

theorem isWordChar_of_isHexDigit {c : Char} (h : isHexDigit c = true) :
    isWordChar c = true := by
  simp only [isHexDigit, Bool.or_eq_true, Bool.and_eq_true, decide_eq_true_eq] at h
  simp only [isWordChar, Bool.or_eq_true, Bool.and_eq_true, decide_eq_true_eq]
  rcases h with (h | h) | h
  · exact Or.inl (Or.inl (Or.inl h))
  · exact Or.inr ⟨h.1, le_trans h.2 (by decide)⟩
  · exact Or.inl (Or.inl (Or.inr ⟨h.1, le_trans h.2 (by decide)⟩))

theorem matchHere_replicate (rest : List ReAtom) :
    ∀ (n : Nat) (s : List Char), (s.take n).length = n →
      (s.take n).all isWordChar = true → matchHere rest (s.drop n) = true →
      matchHere (List.replicate n ReAtom.w ++ rest) s = true := by
  intro n
  induction n with
  | zero => intro s _ _ h; simpa using h
  | succ n ih =>
    intro s h1 h2 h3
    cases s with
    | nil => simp at h1
    | cons c cs =>
      simp only [List.take_succ_cons, List.length_cons, Nat.add_right_cancel_iff,
        List.all_cons, Bool.and_eq_true, List.drop_succ_cons] at h1 h2 h3
      simp only [List.replicate_succ, List.cons_append, matchHere, matchAtom,
        Bool.and_eq_true]
      exact ⟨h2.1, ih cs h1 h2.2 h3⟩

theorem grouped_word (p : Char → Bool) (hp : ∀ c, p c = true → isWordChar c = true) :
    ∀ (gs : List Nat) (s : List Char), grouped p gs s = true →
      matchHere (patternOf gs) s = true ∧ s.length = (patternOf gs).length := by
  intro gs
  induction gs with
  | nil =>
    intro s h
    simp only [grouped, List.isEmpty_iff] at h
    subst h
    exact ⟨rfl, rfl⟩
  | cons n gs ih =>
    intro s h
    cases gs with
    | nil =>
      simp only [grouped, Bool.and_eq_true, beq_iff_eq] at h
      have hall : s.all isWordChar = true := by
        rw [List.all_eq_true] at h ⊢
        intro c hc
        exact hp c (h.2 c hc)
      refine ⟨?_, by simp [patternOf, h.1]⟩
      have := matchHere_replicate [] n s (by simp [h.1])
        (by rw [List.take_of_length_le (le_of_eq h.1)]; exact hall) (by simp [matchHere])
      simpa [patternOf] using this
    | cons m ns =>
      simp only [grouped, Bool.and_eq_true, beq_iff_eq] at h
      obtain ⟨⟨⟨h1, h2⟩, h3⟩, h4⟩ := h
      obtain ⟨i1, i2⟩ := ih (s.drop (n + 1)) h4
      have hall : (s.take n).all isWordChar = true := by
        rw [List.all_eq_true] at h2 ⊢
        intro c hc
        exact hp c (h2 c hc)
      have hd : s.drop n = '-' :: s.drop (n + 1) := by
        cases hdn : s.drop n with
        | nil => rw [hdn] at h3; simp at h3
        | cons d ds =>
          rw [hdn] at h3
          simp only [List.head?_cons, Option.some.injEq] at h3
          have : s.drop (n + 1) = ds := by
            rw [← List.drop_drop, hdn]
            rfl
          rw [h3, this]
      have hm : matchHere (ReAtom.ch '-' :: patternOf (m :: ns)) (s.drop n) = true := by
        rw [hd]
        simp only [matchHere, matchAtom, Bool.and_eq_true, beq_self_eq_true, true_and]
        exact i1
      refine ⟨matchHere_replicate _ n s h1 hall hm, ?_⟩
      have hl1 : s.length = n + (s.drop n).length := by
        have := List.length_take n s
        rw [h1] at this
        have := List.length_drop n s
        omega
      rw [hl1, hd]
      simp only [patternOf, List.length_append, List.length_replicate, List.length_cons]
      omega

theorem wordShaped_of_uuidShaped {s : List Char} (h : uuidShaped s = true) :
    wordShaped s = true := by
  have := grouped_word isHexDigit (fun _ hc => isWordChar_of_isHexDigit hc) _ s h
  have hp : patternOf [8, 4, 4, 4, 12] = uuidRexp := by decide
  rw [hp] at this
  simp only [wordShaped, Bool.and_eq_true, beq_iff_eq]
  exact ⟨this.1, by rw [this.2]; decide⟩

/-! ## Extracting the identifier -/

theorem findString_data {re : List ReAtom} {s : String} {m : List Char}
    (h : findFrom re s.data = some m) : (FindString re s).data = m := by
  simp [FindString, h]

/-- C7 fails for the hexadecimal reading of the token: the pattern is made of
word characters, so the token returned need not be the leftmost hexadecimal
one, nor hexadecimal at all. -/
theorem grab_leftmost_token_not_hex :
    HasPrefix "+OK zzzzzzzz-zzzz-zzzz-zzzz-zzzzzzzzzzzz 1234abcd-12ab-34cd-56ef-1234567890ab"
      "+OK" = true ∧
    "+OK zzzzzzzz-zzzz-zzzz-zzzz-zzzzzzzzzzzz 1234abcd-12ab-34cd-56ef-1234567890ab".data
      = "+OK zzzzzzzz-zzzz-zzzz-zzzz-zzzzzzzzzzzz ".data
        ++ "1234abcd-12ab-34cd-56ef-1234567890ab".data ++ [] ∧
    uuidShaped "1234abcd-12ab-34cd-56ef-1234567890ab".data = true ∧
    grabUuidFromOKBody { Header := [], Body :=
      "+OK zzzzzzzz-zzzz-zzzz-zzzz-zzzzzzzzzzzz 1234abcd-12ab-34cd-56ef-1234567890ab" }
      = ("zzzzzzzz-zzzz-zzzz-zzzz-zzzzzzzzzzzz", none) ∧
    uuidShaped "zzzzzzzz-zzzz-zzzz-zzzz-zzzzzzzzzzzz".data = false := by
  decide

/-- C7, amended: for every response body that begins with `+OK` and contains
an 8-4-4-4-12 token of word characters (letters, digits, underscore; every
hexadecimal token is one), `grabUuidFromOKBody` returns no error and the
leftmost such token of the body; for the body
`+OK 1234abcd-12ab-34cd-56ef-1234567890ab` that is
`1234abcd-12ab-34cd-56ef-1234567890ab`; and `newCall` then yields a call with
that uuid in state New. -/
theorem grab_leftmost_word_token (ev : Event) (pre tok post : List Char)
    (hp : HasPrefix ev.Body "+OK" = true)
    (hb : ev.Body.data = pre ++ tok ++ post) (ht : wordShaped tok = true) :
    (grabUuidFromOKBody ev).2 = none ∧
    wordShaped (grabUuidFromOKBody ev).1.data = true ∧
    (∃ pre1 post1, ev.Body.data = pre1 ++ (grabUuidFromOKBody ev).1.data ++ post1 ∧
      ∀ pre2 tok2 post2, ev.Body.data = pre2 ++ tok2 ++ post2 → wordShaped tok2 = true →
        pre1.length ≤ pre2.length) ∧
    (∀ t, uuidShaped t = true → wordShaped t = true) ∧
    (∀ hdr, grabUuidFromOKBody
        { Header := hdr, Body := "+OK 1234abcd-12ab-34cd-56ef-1234567890ab" }
      = ("1234abcd-12ab-34cd-56ef-1234567890ab", none)) ∧
    (∀ (T : Transport) (c : Connection), T c.sent originateCommand = Except.ok ev →
      newCall T c = (Except.ok { uuid := (grabUuidFromOKBody ev).1, state := stateNew },
        { sent := c.sent ++ [originateCommand] })) := by
  have hg := grab_of_ok ev hp
  simp only [wordShaped, Bool.and_eq_true, beq_iff_eq] at ht
  obtain ⟨m, hm⟩ := @findFrom_isSome uuidRexp ev.Body.data pre (tok ++ post)
    (by rw [hb, List.append_assoc]) (matchHere_append post ht.1)
  obtain ⟨pre1, post1, h1, h2, h3, h4⟩ := findFrom_some hm
  have hd : (grabUuidFromOKBody ev).1.data = m := by
    rw [hg]; exact findString_data hm
  refine ⟨by rw [hg], ?_, ⟨pre1, post1, by rw [hd]; exact h1, ?_⟩,
    fun t h => wordShaped_of_uuidShaped h, ?_, ?_⟩
  · rw [hd]
    simp only [wordShaped, Bool.and_eq_true, beq_iff_eq]
    exact ⟨h2, by rw [h3]; decide⟩
  · intro pre2 tok2 post2 h5 h6
    simp only [wordShaped, Bool.and_eq_true, beq_iff_eq] at h6
    exact h4 pre2 (tok2 ++ post2) (by rw [h5, List.append_assoc]) (matchHere_append post2 h6.1)
  · intro hdr
    have : grabUuidFromOKBody { Header := [], Body := "+OK 1234abcd-12ab-34cd-56ef-1234567890ab" }
        = ("1234abcd-12ab-34cd-56ef-1234567890ab", none) := by decide
    exact this
  · intro T c hT
    simp only [newCall, Connection.Send, hT, hg]

theorem grab_leftmost_word_token_witness :
    HasPrefix "+OK 1234abcd-12ab-34cd-56ef-1234567890ab\n" "+OK" = true ∧
    (grabUuidFromOKBody
      { Header := [], Body := "+OK 1234abcd-12ab-34cd-56ef-1234567890ab\n" }).2 = none :=
  ⟨by decide,
   (grab_leftmost_word_token
      { Header := [], Body := "+OK 1234abcd-12ab-34cd-56ef-1234567890ab\n" }
      "+OK ".data "1234abcd-12ab-34cd-56ef-1234567890ab".data "\n".data
      (by decide) (by decide) (by decide)).1⟩

/-- C8: for a response body that does not begin with `+OK`,
`grabUuidFromOKBody` returns the empty string and `apiCommandNotOkay`, an
error it returns for no other body; `newCall` on such an originate response
ends the process without returning a call, at startup and on a tick alike,
and the registry is left as it was. -/
theorem grab_rejects_not_ok (ev : Event) (h : HasPrefix ev.Body "+OK" = false) :
    grabUuidFromOKBody ev = ("", some GoError.apiCommandNotOkay) ∧
    (∀ ev1 : Event, (grabUuidFromOKBody ev1).2 = some GoError.apiCommandNotOkay ↔
      HasPrefix ev1.Body "+OK" = false) ∧
    (∀ (T : Transport) (c : Connection), T c.sent originateCommand = Except.ok ev →
      newCall T c = (Except.error (Abort.logFatal GoError.apiCommandNotOkay),
        { sent := c.sent ++ [originateCommand] })) ∧
    (∀ (T : Transport), T ["events json ALL"] originateCommand = Except.ok ev →
      startup T = Status.aborted (Abort.logFatal GoError.apiCommandNotOkay) []
        { sent := ["events json ALL", originateCommand] }) ∧
    (∀ (T : Transport) (totalCalls : Int) (s : LoopState),
      T s.conn.sent originateCommand = Except.ok ev → s.callsCount < totalCalls →
      tickCase T totalCalls s = Status.aborted (Abort.logFatal GoError.apiCommandNotOkay)
        s.calls { sent := s.conn.sent ++ [originateCommand] }) := by
  have hg := grab_of_not_ok ev h
  have hn : ∀ (T : Transport) (c : Connection), T c.sent originateCommand = Except.ok ev →
      newCall T c = (Except.error (Abort.logFatal GoError.apiCommandNotOkay),
        { sent := c.sent ++ [originateCommand] }) := by
    intro T c hT
    simp only [newCall, Connection.Send, hT, hg]
  refine ⟨hg, ?_, hn, ?_, ?_⟩
  · intro ev1
    cases hp : HasPrefix ev1.Body "+OK" with
    | true => simp [grab_of_ok ev1 hp]
    | false => simp [grab_of_not_ok ev1 hp]
  · intro T hT
    have := hn T { sent := ["events json ALL"] } hT
    simp only [startup, Connection.Send, List.nil_append, this]
    rfl
  · intro T totalCalls s hT hlt
    have := hn T s.conn hT
    simp only [tickCase, hlt, if_true, this]

theorem grab_rejects_not_ok_witness :
    HasPrefix "-ERR NO_ROUTE_DESTINATION" "+OK" = false ∧
    grabUuidFromOKBody { Header := [], Body := "-ERR NO_ROUTE_DESTINATION" }
      = ("", some GoError.apiCommandNotOkay) :=
  ⟨by decide,
   (grab_rejects_not_ok { Header := [], Body := "-ERR NO_ROUTE_DESTINATION" }
      (by decide)).1⟩

/-! ## End to end -/

theorem findString_ok_uuid (u : String) (h : wordShaped u.data = true) :
    FindString uuidRexp ("+OK " ++ u) = u := by
  simp only [wordShaped, Bool.and_eq_true, beq_iff_eq] at h
  obtain ⟨hm, hl⟩ := h
  have hplus : isWordChar '+' = false := by decide
  have hsp : isWordChar ' ' = false := by decide
  have hd : ("+OK " ++ u).data = '+' :: 'O' :: 'K' :: ' ' :: u.data := by
    simp [String.data_append]
  have hre : uuidRexp = ReAtom.w :: ReAtom.w :: ReAtom.w :: uuidRexp.drop 3 := by decide
  have h0 : matchHere uuidRexp ('+' :: 'O' :: 'K' :: ' ' :: u.data) = false := by
    rw [hre]; simp [matchHere, matchAtom, hplus]
  have h1 : matchHere uuidRexp ('O' :: 'K' :: ' ' :: u.data) = false := by
    rw [hre]; simp [matchHere, matchAtom, hsp]
  have h2 : matchHere uuidRexp ('K' :: ' ' :: u.data) = false := by
    rw [hre]; simp [matchHere, matchAtom, hsp]
  have h3 : matchHere uuidRexp (' ' :: u.data) = false := by
    rw [hre]; simp [matchHere, matchAtom, hsp]
  have hlen : uuidRexp.length = 36 := by decide
  have hf : findFrom uuidRexp ("+OK " ++ u).data = some u.data := by
    rw [hd]
    cases hu : u.data with
    | nil => rw [hu] at hl; simp at hl
    | cons c cs =>
      rw [hu] at h0 h1 h2 h3 hm hl
      simp only [findFrom, h0, h1, h2, h3, hm, if_true, Bool.false_eq_true, if_false,
        hlen, Option.some.injEq]
      exact List.take_of_length_le (le_of_eq hl)
  simp only [FindString, hf]

theorem get_uniqueId (u f v b : String) :
    (Event.mk [("Unique-Id", u), (f, v)] b).Get "Unique-Id" = u := by
  simp [Event.Get, List.lookup]

theorem get_second (u f v b : String) (hf : (f == "Unique-Id") = false) :
    (Event.mk [("Unique-Id", u), (f, v)] b).Get f = v := by
  simp [Event.Get, List.lookup, hf]

theorem mapGet_single (u : String) (c : inprogressCall) : mapGet [(u, c)] u = some c := by
  simp [mapGet, List.lookup]

theorem mapSet_single (u : String) (c c1 : inprogressCall) :
    mapSet u c1 [(u, c)] = [(u, c1)] := by
  simp [mapSet]

theorem sweep_single_live (u : String) (c : inprogressCall) (h : c.state ≠ stateDone) :
    sweep [u] [(u, c)] = [(u, c)] := by
  simp [sweep, sweepStep, mapGet, List.lookup, h]

theorem sweep_single_done (u : String) :
    sweep [u] [(u, { uuid := u, state := stateDone })] = [] := by
  simp [sweep, sweepStep, mapGet, List.lookup, mapDelete]

theorem hasPrefix_ok_uuid (u : String) : HasPrefix ("+OK " ++ u) "+OK" = true := by
  simp [HasPrefix, String.data_append, List.isPrefixOf]

theorem length_of_wordShaped {u : String} (h : wordShaped u.data = true) :
    u.length ≠ 0 := by
  simp only [wordShaped, Bool.and_eq_true, beq_iff_eq] at h
  have : u.length = u.data.length := rfl
  omega

/-- C9: with a configured total of one and a UUID-shaped identifier `u`, when
the switch answers the originate command with `+OK u` and the play and hangup
commands with `+OK`, startup registers the call in New; the answered,
PLAYBACK_STOP and CS_DESTROY events for `u` take it to Playing, to
WaitingHangup and to Done, after which the registry is empty; the counter
stays at one, one originate command has been sent, and the next tick ends the
loop normally. -/
theorem end_to_end_single_call (T : Transport) (u : String) (hdr1 hdr2 hdr3 : List (String × String))
    (bA bB bC : String) (hu : uuidShaped u.data = true)
    (hO : T ["events json ALL"] originateCommand
      = Except.ok { Header := hdr1, Body := "+OK " ++ u })
    (hP : T ["events json ALL", originateCommand] (playCommand u)
      = Except.ok { Header := hdr2, Body := "+OK" })
    (hH : T ["events json ALL", originateCommand, playCommand u] (hangupCommand u)
      = Except.ok { Header := hdr3, Body := "+OK" }) :
    startup T = Status.running
      { calls := [(u, { uuid := u, state := stateNew })], callsCount := 1,
        conn := { sent := ["events json ALL", originateCommand] } } ∧
    eventCase T
      { calls := [(u, { uuid := u, state := stateNew })], callsCount := 1,
        conn := { sent := ["events json ALL", originateCommand] } }
      { Header := [("Unique-Id", u), ("Answer-State", "answered")], Body := bA } [u]
      = Status.running
      { calls := [(u, { uuid := u, state := statePlaying })], callsCount := 1,
        conn := { sent := ["events json ALL", originateCommand, playCommand u] } } ∧
    eventCase T
      { calls := [(u, { uuid := u, state := statePlaying })], callsCount := 1,
        conn := { sent := ["events json ALL", originateCommand, playCommand u] } }
      { Header := [("Unique-Id", u), ("Event-Name", "PLAYBACK_STOP")], Body := bB } [u]
      = Status.running
      { calls := [(u, { uuid := u, state := stateWaitingHangup })], callsCount := 1,
        conn := { sent := ["events json ALL", originateCommand, playCommand u,
          hangupCommand u] } } ∧
    (handleCallEvent T
      { sent := ["events json ALL", originateCommand, playCommand u, hangupCommand u] }
      { uuid := u, state := stateWaitingHangup }
      { Header := [("Unique-Id", u), ("Channel-State", "CS_DESTROY")], Body := bC }).call.state
      = stateDone ∧
    eventCase T
      { calls := [(u, { uuid := u, state := stateWaitingHangup })], callsCount := 1,
        conn := { sent := ["events json ALL", originateCommand, playCommand u,
          hangupCommand u] } }
      { Header := [("Unique-Id", u), ("Channel-State", "CS_DESTROY")], Body := bC } [u]
      = Status.running
      { calls := [], callsCount := 1,
        conn := { sent := ["events json ALL", originateCommand, playCommand u,
          hangupCommand u] } } ∧
    tickCase T 1
      { calls := [], callsCount := 1,
        conn := { sent := ["events json ALL", originateCommand, playCommand u,
          hangupCommand u] } }
      = Status.exited
      { calls := [], callsCount := 1,
        conn := { sent := ["events json ALL", originateCommand, playCommand u,
          hangupCommand u] } } ∧
    run T 1 (startup T)
      [Input.event { Header := [("Unique-Id", u), ("Answer-State", "answered")], Body := bA } [u],
       Input.event { Header := [("Unique-Id", u), ("Event-Name", "PLAYBACK_STOP")], Body := bB } [u],
       Input.event { Header := [("Unique-Id", u), ("Channel-State", "CS_DESTROY")], Body := bC } [u],
       Input.tick]
      = Status.exited
      { calls := [], callsCount := 1,
        conn := { sent := ["events json ALL", originateCommand, playCommand u,
          hangupCommand u] } } ∧
    visitedStates T { sent := ["events json ALL", originateCommand] }
      { uuid := u, state := stateNew }
      [{ Header := [("Unique-Id", u), ("Answer-State", "answered")], Body := bA },
       { Header := [("Unique-Id", u), ("Event-Name", "PLAYBACK_STOP")], Body := bB },
       { Header := [("Unique-Id", u), ("Channel-State", "CS_DESTROY")], Body := bC }]
      = [stateNew, statePlaying, stateWaitingHangup, stateDone] := by
  have hw := wordShaped_of_uuidShaped hu
  have hlen := length_of_wordShaped hw
  have hgO : grabUuidFromOKBody { Header := hdr1, Body := "+OK " ++ u } = (u, none) := by
    rw [grab_of_ok _ (hasPrefix_ok_uuid u)]
    simp only [findString_ok_uuid u hw]
  have hgP : (grabUuidFromOKBody { Header := hdr2, Body := "+OK" }).2 = none := by
    rw [grab_of_ok _ (show HasPrefix "+OK" "+OK" = true by decide)]
  have hstart : startup T = Status.running
      { calls := [(u, { uuid := u, state := stateNew })], callsCount := 1,
        conn := { sent := ["events json ALL", originateCommand] } } := by
    simp only [startup, newCall, Connection.Send, List.nil_append, hO, hgO, mapSet]
    rfl
  have hA : handleCallEvent T { sent := ["events json ALL", originateCommand] }
      { uuid := u, state := stateNew }
      { Header := [("Unique-Id", u), ("Answer-State", "answered")], Body := bA }
      = { call := { uuid := u, state := statePlaying },
          conn := { sent := ["events json ALL", originateCommand, playCommand u] },
          abort := none } := by
    have hget := get_second u "Answer-State" "answered" bA (by decide)
    simp only [handleCallEvent, handleEventNew, hget, playAudio, Connection.Send, hP]
    rcases hg : grabUuidFromOKBody { Header := hdr2, Body := "+OK" } with ⟨x, _ | e⟩
    · simp
    · rw [hg] at hgP; simp at hgP
  have hB : handleCallEvent T { sent := ["events json ALL", originateCommand, playCommand u] }
      { uuid := u, state := statePlaying }
      { Header := [("Unique-Id", u), ("Event-Name", "PLAYBACK_STOP")], Body := bB }
      = { call := { uuid := u, state := stateWaitingHangup },
          conn := { sent := ["events json ALL", originateCommand, playCommand u,
            hangupCommand u] },
          abort := none } := by
    have hget := get_second u "Event-Name" "PLAYBACK_STOP" bB (by decide)
    simp [handleCallEvent, handleEventPlaying, hget, scheduleHangup, Connection.Send, hH]
  have hC : handleCallEvent T
      { sent := ["events json ALL", originateCommand, playCommand u, hangupCommand u] }
      { uuid := u, state := stateWaitingHangup }
      { Header := [("Unique-Id", u), ("Channel-State", "CS_DESTROY")], Body := bC }
      = { call := { uuid := u, state := stateDone },
          conn := { sent := ["events json ALL", originateCommand, playCommand u,
            hangupCommand u] },
          abort := none } := by
    have hget := get_second u "Channel-State" "CS_DESTROY" bC (by decide)
    simp [handleCallEvent, handleEventWaitingHangup, hget]
  have heA : eventCase T
      { calls := [(u, { uuid := u, state := stateNew })], callsCount := 1,
        conn := { sent := ["events json ALL", originateCommand] } }
      { Header := [("Unique-Id", u), ("Answer-State", "answered")], Body := bA } [u]
      = Status.running
      { calls := [(u, { uuid := u, state := statePlaying })], callsCount := 1,
        conn := { sent := ["events json ALL", originateCommand, playCommand u] } } := by
    simp only [eventCase, get_uniqueId, hlen, if_false, mapGet_single, hA, mapSet_single]
    rw [sweep_single_live u _ (by simp)]
  have heB : eventCase T
      { calls := [(u, { uuid := u, state := statePlaying })], callsCount := 1,
        conn := { sent := ["events json ALL", originateCommand, playCommand u] } }
      { Header := [("Unique-Id", u), ("Event-Name", "PLAYBACK_STOP")], Body := bB } [u]
      = Status.running
      { calls := [(u, { uuid := u, state := stateWaitingHangup })], callsCount := 1,
        conn := { sent := ["events json ALL", originateCommand, playCommand u,
          hangupCommand u] } } := by
    simp only [eventCase, get_uniqueId, hlen, if_false, mapGet_single, hB, mapSet_single]
    rw [sweep_single_live u _ (by simp)]
  have heC : eventCase T
      { calls := [(u, { uuid := u, state := stateWaitingHangup })], callsCount := 1,
        conn := { sent := ["events json ALL", originateCommand, playCommand u,
          hangupCommand u] } }
      { Header := [("Unique-Id", u), ("Channel-State", "CS_DESTROY")], Body := bC } [u]
      = Status.running
      { calls := [], callsCount := 1,
        conn := { sent := ["events json ALL", originateCommand, playCommand u,
          hangupCommand u] } } := by
    simp only [eventCase, get_uniqueId, hlen, if_false, mapGet_single, hC, mapSet_single]
    rw [sweep_single_done u]
  have hT : tickCase T 1
      { calls := [], callsCount := 1,
        conn := { sent := ["events json ALL", originateCommand, playCommand u,
          hangupCommand u] } }
      = Status.exited
      { calls := [], callsCount := 1,
        conn := { sent := ["events json ALL", originateCommand, playCommand u,
          hangupCommand u] } } := by
    simp [tickCase]
  refine ⟨hstart, heA, heB, by rw [hC], heC, hT, ?_, ?_⟩
  · simp only [run, step, hstart, heA, heB, heC, hT]
  · simp only [visitedStates, hA, hB, hC]

theorem end_to_end_single_call_witness :
    uuidShaped sampleUuid.data = true ∧
    run sampleTransport 1 (startup sampleTransport)
      [Input.event sampleAnswered [sampleUuid], Input.event samplePlaybackStop [sampleUuid],
       Input.event sampleDestroy [sampleUuid], Input.tick]
      = Status.exited sampleFinished :=
  ⟨by decide,
   (end_to_end_single_call sampleTransport sampleUuid [] [] [] "" "" "" (by decide)
      rfl rfl rfl).2.2.2.2.2.2.1⟩

theorem handleCallEvent_forward_walk_witness :
    visitedStates sampleTransport sampleStart.conn { uuid := sampleUuid, state := stateNew }
      [sampleAnswered, samplePlaybackStop, sampleDestroy]
      = [stateNew, statePlaying] ++ stateWaitingHangup :: [stateDone] ∧
    statePlaying ∈ [stateNew, statePlaying] :=
  ⟨by decide,
   (handleCallEvent_forward_walk sampleTransport sampleStart.conn
      { uuid := sampleUuid, state := stateNew } sampleAnswered
      [sampleAnswered, samplePlaybackStop, sampleDestroy] sampleUuid).2.2.2
      [stateNew, statePlaying] [stateDone] (by decide)⟩

/-! ## Rejected commands -/

theorem scheduleHangup_of_reply (T : Transport) (c : Connection) (call : inprogressCall)
    (ev rev : Event) (h : T c.sent (hangupCommand call.uuid) = Except.ok rev) :
    scheduleHangup T c call ev =
      { call := { call with state := stateWaitingHangup },
        conn := { sent := c.sent ++ [hangupCommand call.uuid] }, abort := none } := by
  simp [scheduleHangup, Connection.Send, h]

theorem hangup_reply_ignored (T : Transport) (c : Connection) (call : inprogressCall)
    (ev rev : Event) (hs : call.state = statePlaying)
    (he : ev.Get "Event-Name" = "PLAYBACK_STOP")
    (hT : T c.sent (hangupCommand call.uuid) = Except.ok rev) :
    (handleCallEvent T c call ev).call.state = stateWaitingHangup ∧
    (handleCallEvent T c call ev).abort = none := by
  obtain ⟨u, st⟩ := call
  simp only [] at hs
  subst hs
  have h1 : ¬ ev.Get "Event-Name" = "PLAYBACK_START" := by rw [he]; decide
  simp only [handleCallEvent, handleEventPlaying, h1, if_false, he, if_true]
  rw [scheduleHangup_of_reply T c _ ev rev hT]
  exact ⟨rfl, rfl⟩

/-- C11, the code at a rejected hangup command: the reply body is never
inspected, so a call in Playing that receives PLAYBACK_STOP enters
WaitingHangup, and the step does not abort, although the reply to the
scheduled-hangup command is `-ERR`. -/
theorem rejected_hangup_enters_waitingHangup :
    HasPrefix "-ERR no reply" "+OK" = false ∧
    rejectingTransport samplePlaying.conn.sent (hangupCommand sampleUuid)
      = Except.ok { Header := [], Body := "-ERR no reply" } ∧
    handleCallEvent rejectingTransport samplePlaying.conn
      { uuid := sampleUuid, state := statePlaying } samplePlaybackStop
      = { call := { uuid := sampleUuid, state := stateWaitingHangup },
          conn := sampleWaiting.conn, abort := none } :=
  ⟨by decide, rfl, by decide⟩

/-! ## The broadcast command -/

theorem playAudio_cases (T : Transport) (c : Connection) (call : inprogressCall) (ev : Event) :
    (∃ e, T c.sent (playCommand call.uuid) = Except.error e ∧
      playAudio T c call ev =
        { call := call, conn := { sent := c.sent ++ [playCommand call.uuid] },
          abort := some (Abort.panic e) }) ∨
    (∃ rev, T c.sent (playCommand call.uuid) = Except.ok rev ∧
      HasPrefix rev.Body "+OK" = false ∧
      playAudio T c call ev =
        { call := call, conn := { sent := c.sent ++ [playCommand call.uuid] },
          abort := some (Abort.panic GoError.apiCommandNotOkay) }) ∨
    (∃ rev, T c.sent (playCommand call.uuid) = Except.ok rev ∧
      HasPrefix rev.Body "+OK" = true ∧
      playAudio T c call ev =
        { call := { call with state := statePlaying },
          conn := { sent := c.sent ++ [playCommand call.uuid] }, abort := none }) := by
  cases hT : T c.sent (playCommand call.uuid) with
  | error e =>
    refine Or.inl ⟨e, rfl, ?_⟩
    simp [playAudio, Connection.Send, hT]
  | ok rev =>
    cases hp : HasPrefix rev.Body "+OK" with
    | false =>
      refine Or.inr (Or.inl ⟨rev, rfl, hp, ?_⟩)
      simp [playAudio, Connection.Send, hT, grab_of_not_ok rev hp]
    | true =>
      refine Or.inr (Or.inr ⟨rev, rfl, hp, ?_⟩)
      simp [playAudio, Connection.Send, hT, grab_of_ok rev hp]

theorem handleCallEvent_answered (T : Transport) (c : Connection) (call : inprogressCall)
    (ev : Event) (hs : call.state = stateNew) (he : ev.Get "Answer-State" = "answered") :
    handleCallEvent T c call ev = playAudio T c call ev := by
  obtain ⟨u, st⟩ := call
  simp only [] at hs
  subst hs
  simp [handleCallEvent, handleEventNew, he]

/-- C12: a call in New that receives an answered event enters Playing exactly
when the broadcast command comes back without transport error and with a
reply whose body begins with `+OK`; on a transport error, or on a reply that
does not begin with `+OK`, the step panics and the call is left in New. -/
theorem answered_enters_playing_iff (T : Transport) (c : Connection) (call : inprogressCall)
    (ev : Event) (hs : call.state = stateNew) (he : ev.Get "Answer-State" = "answered") :
    ((handleCallEvent T c call ev).call.state = statePlaying ↔
      ∃ rev, T c.sent (playCommand call.uuid) = Except.ok rev ∧
        HasPrefix rev.Body "+OK" = true) ∧
    (∀ e, T c.sent (playCommand call.uuid) = Except.error e →
      (handleCallEvent T c call ev).abort = some (Abort.panic e) ∧
      (handleCallEvent T c call ev).call.state = stateNew) ∧
    (∀ rev, T c.sent (playCommand call.uuid) = Except.ok rev →
      HasPrefix rev.Body "+OK" = false →
      (handleCallEvent T c call ev).abort = some (Abort.panic GoError.apiCommandNotOkay) ∧
      (handleCallEvent T c call ev).call.state = stateNew) ∧
    ((handleCallEvent T c call ev).call.state = statePlaying →
      (handleCallEvent T c call ev).abort = none) := by
  rw [handleCallEvent_answered T c call ev hs he]
  rcases playAudio_cases T c call ev with ⟨e, h1, h2⟩ | ⟨rev, h1, h2, h3⟩ | ⟨rev, h1, h2, h3⟩
  · rw [h2]
    refine ⟨?_, ?_, ?_, ?_⟩
    · simp [hs, h1]
    · intro e1 he1
      rw [h1] at he1
      cases he1
      exact ⟨rfl, hs⟩
    · intro rev hr; rw [h1] at hr; cases hr
    · simp [hs]
  · rw [h3]
    refine ⟨?_, ?_, ?_, ?_⟩
    · simp only [hs, h1, Except.ok.injEq, false_iff, not_exists, not_and]
      constructor
      · intro h; cases h
      · intro ⟨x, hx, hy⟩
        subst hx
        rw [h2] at hy
        cases hy
    · intro e1 he1; rw [h1] at he1; cases he1
    · intro rev1 hr _
      exact ⟨rfl, hs⟩
    · simp [hs]
  · rw [h3]
    refine ⟨?_, ?_, ?_, ?_⟩
    · simp only [true_iff]
      exact ⟨rev, h1, h2⟩
    · intro e1 he1; rw [h1] at he1; cases he1
    · intro rev1 hr hp
      rw [h1] at hr
      cases hr
      rw [h2] at hp
      cases hp
    · intro _; rfl

theorem answered_enters_playing_iff_witness :
    (handleCallEvent rejectingTransport sampleStart.conn
      { uuid := sampleUuid, state := stateNew } sampleAnswered).abort
      = some (Abort.panic GoError.apiCommandNotOkay) ∧
    (handleCallEvent rejectingTransport sampleStart.conn
      { uuid := sampleUuid, state := stateNew } sampleAnswered).call.state = stateNew :=
  (answered_enters_playing_iff rejectingTransport sampleStart.conn
    { uuid := sampleUuid, state := stateNew } sampleAnswered rfl (by decide)).2.2.1
    { Header := [], Body := "-ERR no reply" } rfl (by decide)

/-! ## A reply without identifier -/

/-- C13, the code at an originate reply `+OK` with no identifier in it:
`grabUuidFromOKBody` returns the empty string and no error, `newCall` returns
a call with the empty uuid in New, and startup registers it under the empty
key. -/
theorem bare_ok_reply_registers_call :
    HasPrefix "+OK" "+OK" = true ∧
    findFrom uuidRexp "+OK".data = none ∧
    grabUuidFromOKBody { Header := [], Body := "+OK" } = ("", none) ∧
    newCall okTransport { sent := ["events json ALL"] }
      = (Except.ok { uuid := "", state := stateNew },
         { sent := ["events json ALL", originateCommand] }) ∧
    startup okTransport = Status.running
      { calls := [("", { uuid := "", state := stateNew })], callsCount := 1,
        conn := { sent := ["events json ALL", originateCommand] } } := by
  refine ⟨by decide, by decide, by decide, rfl, by decide⟩

/-! ## The shape of the extracted identifier -/

theorem matchHere_replicate_inv (rest : List ReAtom) :
    ∀ (n : Nat) (s : List Char),
      matchHere (List.replicate n ReAtom.w ++ rest) s = true →
      (s.take n).length = n ∧ (s.take n).all isWordChar = true ∧
        matchHere rest (s.drop n) = true := by
  intro n
  induction n with
  | zero => intro s h; simpa using h
  | succ n ih =>
    intro s h
    cases s with
    | nil => simp [List.replicate_succ, matchHere] at h
    | cons c cs =>
      simp only [List.replicate_succ, List.cons_append, matchHere, matchAtom,
        Bool.and_eq_true] at h
      obtain ⟨h1, h2, h3⟩ := ih cs h.2
      simp only [List.take_succ_cons, List.length_cons, List.all_cons, Bool.and_eq_true,
        List.drop_succ_cons]
      exact ⟨by omega, ⟨h.1, h2⟩, h3⟩

theorem grouped_of_match :
    ∀ (gs : List Nat) (s : List Char), matchHere (patternOf gs) s = true →
      s.length = (patternOf gs).length → grouped isWordChar gs s = true := by
  intro gs
  induction gs with
  | nil =>
    intro s _ hl
    simp only [patternOf, List.length_nil, List.length_eq_zero] at hl
    subst hl
    rfl
  | cons n gs ih =>
    intro s hm hl
    cases gs with
    | nil =>
      simp only [patternOf, List.length_replicate] at hm hl
      have hm1 : matchHere (List.replicate n ReAtom.w ++ []) s = true := by simpa using hm
      obtain ⟨_, h2, _⟩ := matchHere_replicate_inv [] n s hm1
      rw [List.take_of_length_le (le_of_eq hl)] at h2
      simp only [grouped, Bool.and_eq_true, beq_iff_eq]
      exact ⟨hl, h2⟩
    | cons m ns =>
      simp only [patternOf] at hm hl
      obtain ⟨h1, h2, h3⟩ := matchHere_replicate_inv _ n s hm
      cases hd : s.drop n with
      | nil => rw [hd] at h3; simp [matchHere] at h3
      | cons d ds =>
        rw [hd] at h3
        simp only [matchHere, matchAtom, Bool.and_eq_true, beq_iff_eq] at h3
        have hds : s.drop (n + 1) = ds := by
          rw [← List.drop_drop, hd]
          rfl
        have hlen : s.length = n + (ds.length + 1) := by
          have := List.length_drop n s
          rw [hd] at this
          have := List.length_take n s
          simp only [List.length_cons] at *
          omega
        have hl2 : ds.length = (patternOf (m :: ns)).length := by
          simp only [List.length_append, List.length_replicate, List.length_cons] at hl
          omega
        simp only [grouped, Bool.and_eq_true, beq_iff_eq, hd, hds, List.head?_cons]
        exact ⟨⟨⟨h1, h2⟩, by rw [h3.1]⟩, ih ds h3.2 hl2⟩

theorem wordGrouped_iff (s : List Char) : wordGrouped s = true ↔ wordShaped s = true := by
  have hp : patternOf [8, 4, 4, 4, 12] = uuidRexp := by decide
  have hlen : uuidRexp.length = 36 := by decide
  constructor
  · intro h
    have := grouped_word isWordChar (fun _ hc => hc) _ s h
    rw [hp] at this
    simp only [wordShaped, Bool.and_eq_true, beq_iff_eq]
    exact ⟨this.1, by rw [this.2, hlen]⟩
  · intro h
    simp only [wordShaped, Bool.and_eq_true, beq_iff_eq] at h
    exact grouped_of_match _ s (by rw [hp]; exact h.1) (by rw [hp, hlen]; exact h.2)

/-- C14 fails as stated: the identifier extracted from the reply
`+OK ghijklmn-opqr-stuv-wxyz-GHIJKLMN_OPQ` is not made of hexadecimal
digits, yet call creation succeeds. -/
theorem created_uuid_not_hexadecimal :
    newCall (fun _ _ => Except.ok
        { Header := [], Body := "+OK ghijklmn-opqr-stuv-wxyz-GHIJKLMN_OPQ" })
      { sent := ["events json ALL"] }
      = (Except.ok { uuid := "ghijklmn-opqr-stuv-wxyz-GHIJKLMN_OPQ", state := stateNew },
         { sent := ["events json ALL", originateCommand] }) ∧
    uuidShaped "ghijklmn-opqr-stuv-wxyz-GHIJKLMN_OPQ".data = false :=
  ⟨rfl, by decide⟩

/-- C14, amended: for every originate reply on which call creation succeeds
and whose body holds an 8-4-4-4-12 token of word characters (letters, digits,
underscore; a hexadecimal token is one), the extracted identifier is a
contiguous substring of the body made of five hyphen-separated groups of 8, 4,
4, 4 and 12 word characters. -/
theorem created_uuid_word_token (T : Transport) (c c1 : Connection) (call : inprogressCall)
    (rev : Event) (pre tok post : List Char)
    (hn : newCall T c = (Except.ok call, c1))
    (hT : T c.sent originateCommand = Except.ok rev)
    (hb : rev.Body.data = pre ++ tok ++ post) (ht : wordGrouped tok = true) :
    (∃ pre1 post1, rev.Body.data = pre1 ++ call.uuid.data ++ post1) ∧
    wordGrouped call.uuid.data = true ∧
    (∀ t, uuidShaped t = true → wordGrouped t = true) := by
  obtain ⟨_, _, rev1, hT1, hg⟩ := newCall_ok hn
  rw [hT] at hT1
  cases hT1
  have hw := (wordGrouped_iff tok).mp ht
  simp only [wordShaped, Bool.and_eq_true, beq_iff_eq] at hw
  have hp : HasPrefix rev.Body "+OK" = true := by
    cases hp : HasPrefix rev.Body "+OK" with
    | true => rfl
    | false =>
      rw [grab_of_not_ok rev hp] at hg
      simp at hg
  obtain ⟨m, hm⟩ := @findFrom_isSome uuidRexp rev.Body.data pre (tok ++ post)
    (by rw [hb, List.append_assoc]) (matchHere_append post hw.1)
  obtain ⟨pre1, post1, h1, h2, h3, _⟩ := findFrom_some hm
  have hd : call.uuid.data = m := by
    have := grab_of_ok rev hp
    rw [hg] at this
    have h4 : call.uuid = FindString uuidRexp rev.Body := congrArg Prod.fst this
    rw [h4]
    exact findString_data hm
  refine ⟨⟨pre1, post1, by rw [hd]; exact h1⟩, ?_, ?_⟩
  · rw [hd]
    apply (wordGrouped_iff m).mpr
    simp only [wordShaped, Bool.and_eq_true, beq_iff_eq]
    exact ⟨h2, by rw [h3]; decide⟩
  · intro t h
    exact (wordGrouped_iff t).mpr (wordShaped_of_uuidShaped h)

theorem created_uuid_word_token_witness :
    wordGrouped "1234abcd-12ab-34cd-56ef-1234567890ab".data = true ∧
    wordGrouped ({ uuid := sampleUuid, state := stateNew } : inprogressCall).uuid.data = true :=
  ⟨by decide,
   (created_uuid_word_token sampleTransport { sent := ["events json ALL"] }
      { sent := ["events json ALL", originateCommand] }
      { uuid := sampleUuid, state := stateNew }
      { Header := [], Body := "+OK 1234abcd-12ab-34cd-56ef-1234567890ab" }
      "+OK ".data "1234abcd-12ab-34cd-56ef-1234567890ab".data []
      rfl rfl (by decide) (by decide)).2.1⟩

/-! ## Lookup after an update -/

theorem mapGet_mapSet_self (k : String) (v : inprogressCall) (m : Registry) :
    mapGet (mapSet k v m) k = some v := by
  induction m with
  | nil => simp [mapSet, mapGet, List.lookup]
  | cons e m ih =>
    obtain ⟨k1, v1⟩ := e
    simp only [mapSet]
    by_cases h : k1 = k
    · simp [h, mapGet, List.lookup]
    · have h2 : (k == k1) = false := by simpa using fun h3 : k = k1 => h h3.symm
      simp only [h, if_false, mapGet, List.lookup, h2]
      exact ih

theorem mapGet_mapSet_ne {k k1 : String} (v : inprogressCall) (m : Registry) (h : k1 ≠ k) :
    mapGet (mapSet k v m) k1 = mapGet m k1 := by
  induction m with
  | nil =>
    have h2 : (k1 == k) = false := by simpa using h
    simp [mapSet, mapGet, List.lookup, h2]
  | cons e m ih =>
    obtain ⟨k2, v2⟩ := e
    simp only [mapSet]
    by_cases h3 : k2 = k
    · subst h3
      have h2 : (k1 == k2) = false := by simpa using h
      simp [mapGet, List.lookup, h2]
    · simp only [h3, if_false, mapGet, List.lookup]
      cases h4 : (k1 == k2) with
      | true => rfl
      | false => exact ih

theorem mapGet_filter (p : String × inprogressCall → Bool) (k : String) :
    ∀ (m : Registry), (∀ e ∈ m, e.1 = k → p e = true) →
      mapGet (m.filter p) k = mapGet m k := by
  intro m
  induction m with
  | nil => intro _; rfl
  | cons e m ih =>
    intro h
    obtain ⟨k1, v1⟩ := e
    have ih1 := ih (fun e he hk => h e (List.mem_cons_of_mem _ he) hk)
    by_cases hk : k = k1
    · subst hk
      have := h (k, v1) (List.mem_cons_self _ _) rfl
      simp [List.filter_cons, this, mapGet, List.lookup]
    · have h2 : (k == k1) = false := by simpa using hk
      cases hp : p (k1, v1) with
      | true =>
        simp only [List.filter_cons, hp, if_true, mapGet, List.lookup, h2]
        exact ih1
      | false =>
        simp only [List.filter_cons, hp, Bool.false_eq_true, if_false, mapGet,
          List.lookup, h2]
        exact ih1

theorem length_mapSet (k : String) (v : inprogressCall) (m : Registry) :
    (mapSet k v m).length = if k ∈ mapKeys m then m.length else m.length + 1 := by
  have h : (mapKeys (mapSet k v m)).length = (mapSet k v m).length := by simp [mapKeys]
  rw [← h, mapKeys_mapSet]
  split <;> simp [mapKeys]

theorem eventCase_aborted {T : Transport} {s : LoopState} {ev : Event} {order : List String}
    {a : Abort} {calls1 : Registry} {c1 : Connection}
    (h : eventCase T s ev order = Status.aborted a calls1 c1) :
    ∃ call, (ev.Get "Unique-Id").length ≠ 0 ∧
      mapGet s.calls (ev.Get "Unique-Id") = some call ∧
      (handleCallEvent T s.conn call ev).abort = some a ∧
      calls1 = mapSet (ev.Get "Unique-Id") (handleCallEvent T s.conn call ev).call s.calls ∧
      c1 = (handleCallEvent T s.conn call ev).conn := by
  unfold eventCase at h
  simp only [] at h
  by_cases h0 : (ev.Get "Unique-Id").length = 0
  · simp [h0] at h
  · simp only [h0, if_false] at h
    cases hg : mapGet s.calls (ev.Get "Unique-Id") with
    | none => simp [hg] at h
    | some call =>
      simp only [hg] at h
      cases ha : (handleCallEvent T s.conn call ev).abort with
      | none => simp [ha] at h
      | some a1 =>
        simp only [ha, Status.aborted.injEq] at h
        exact ⟨call, h0, rfl, by rw [ha, h.1], h.2.1.symm, h.2.2.symm⟩

theorem eventCase_calls {T : Transport} {totalCalls : Int} {s s1 : LoopState} {ev : Event}
    {order : List String} (hi : LoopInv totalCalls s)
    (h : eventCase T s ev order = Status.running s1) :
    s1.calls = s.calls ∨
    ((ev.Get "Unique-Id").length ≠ 0 ∧
      ∀ k, k ≠ ev.Get "Unique-Id" → mapGet s1.calls k = mapGet s.calls k) := by
  rcases eventCase_running h with ⟨_, h1⟩ | ⟨_, _, h1⟩ | ⟨call, hlen, hg, _, h1⟩
  · exact Or.inl (by rw [h1])
  · exact Or.inl (by rw [h1, sweep_noDone order hi.reg.live])
  · refine Or.inr ⟨hlen, ?_⟩
    intro k hk
    rw [h1]
    simp only []
    have hu : (handleCallEvent T s.conn call ev).call.uuid = ev.Get "Unique-Id" := by
      rw [handleCallEvent_uuid]
      exact hi.reg.keys _ (mem_of_mapGet hg)
    rw [sweep_eq order (keysMatch_mapSet hi.reg.keys hu) (nodup_mapSet hi.reg.nodup)]
    rw [mapGet_filter, mapGet_mapSet_ne _ _ hk]
    intro e he hek
    rcases mem_mapSet he with h2 | h2
    · rw [h2] at hek
      exact absurd hek.symm hk
    · have := hi.reg.live e h2
      simp [this]

/-! ## Registration -/

/-- C15, the code at two originate replies that carry no identifier: both
calls get the empty uuid, and registering the second replaces the first: the
counter goes from one to two while the registry keeps one entry. -/
theorem second_empty_call_replaces_first :
    startup okTransport = Status.running
      { calls := [("", { uuid := "", state := stateNew })], callsCount := 1,
        conn := { sent := ["events json ALL", originateCommand] } } ∧
    tickCase okTransport 3
      { calls := [("", { uuid := "", state := stateNew })], callsCount := 1,
        conn := { sent := ["events json ALL", originateCommand] } }
      = Status.running
      { calls := [("", { uuid := "", state := stateNew })], callsCount := 2,
        conn := { sent := ["events json ALL", originateCommand, originateCommand] } } ∧
    [("", ({ uuid := "", state := stateNew } : inprogressCall))].length = 1 := by
  refine ⟨by decide, by decide, rfl⟩

/-! ## An event touches its own call only -/

/-- C16: in a reachable loop state, whatever the order of the sweep, an event
with identifier `u` leaves every registry entry under another key as it is,
when the step completes and when it aborts; the call found under `u`
afterwards has the uuid of the call found there before; and no handler
changes the uuid of the call it handles. -/
theorem event_touches_own_call_only (T : Transport) (totalCalls : Int) (s : LoopState)
    (hs : Reachable T totalCalls s) (ev : Event) (order : List String) :
    (∀ s1, eventCase T s ev order = Status.running s1 →
      ∀ k, k ≠ ev.Get "Unique-Id" → mapGet s1.calls k = mapGet s.calls k) ∧
    (∀ a calls1 c1, eventCase T s ev order = Status.aborted a calls1 c1 →
      ∀ k, k ≠ ev.Get "Unique-Id" → mapGet calls1 k = mapGet s.calls k) ∧
    (∀ s1 call1, eventCase T s ev order = Status.running s1 →
      mapGet s1.calls (ev.Get "Unique-Id") = some call1 →
      ∃ call0, mapGet s.calls (ev.Get "Unique-Id") = some call0 ∧ call1.uuid = call0.uuid) ∧
    (∀ (c : Connection) (call : inprogressCall),
      (handleCallEvent T c call ev).call.uuid = call.uuid) := by
  have hi := reachable_inv hs
  refine ⟨?_, ?_, ?_, fun c call => handleCallEvent_uuid T c call ev⟩
  · intro s1 h k hk
    rcases eventCase_calls hi h with h1 | ⟨_, h1⟩
    · rw [h1]
    · exact h1 k hk
  · intro a calls1 c1 h k hk
    obtain ⟨call, _, _, _, h1, _⟩ := eventCase_aborted h
    rw [h1]
    exact mapGet_mapSet_ne _ _ hk
  · intro s1 call1 h hg1
    rcases eventCase_running h with ⟨_, h1⟩ | ⟨_, _, h1⟩ | ⟨call, _, hg, _, h1⟩
    · rw [h1] at hg1
      exact ⟨call1, hg1, rfl⟩
    · rw [h1] at hg1
      simp only [sweep_noDone order hi.reg.live] at hg1
      exact ⟨call1, hg1, rfl⟩
    · refine ⟨call, hg, ?_⟩
      have hu : (handleCallEvent T s.conn call ev).call.uuid = ev.Get "Unique-Id" := by
        rw [handleCallEvent_uuid]
        exact hi.reg.keys _ (mem_of_mapGet hg)
      have hk := keysMatch_mapSet hi.reg.keys hu
      rw [h1] at hg1
      simp only [] at hg1
      rw [sweep_eq order hk (nodup_mapSet hi.reg.nodup)] at hg1
      have hm := List.mem_of_mem_filter (mem_of_mapGet hg1)
      have h2 := hk _ hm
      simp only [] at h2
      rw [h2]
      exact (hi.reg.keys _ (mem_of_mapGet hg)).symm

theorem event_touches_own_call_only_witness :
    Reachable okTransport 3
      { calls := [("", { uuid := "", state := stateNew })], callsCount := 1,
        conn := { sent := ["events json ALL", originateCommand] } } ∧
    ∀ s1, eventCase okTransport
      { calls := [("", { uuid := "", state := stateNew })], callsCount := 1,
        conn := { sent := ["events json ALL", originateCommand] } } sampleAnswered [""]
      = Status.running s1 →
      mapGet s1.calls "" = some { uuid := "", state := stateNew } :=
  ⟨Reachable.start (by decide),
   fun s1 h =>
    (event_touches_own_call_only okTransport 3 _ (Reachable.start (by decide))
      sampleAnswered [""]).1 s1 h "" (by decide)⟩

/-! ## One call per tick -/

/-- C17: a tick with the counter below the total either ends the process
inside `newCall`, registering nothing, or creates one call: one originate
command is sent, the call is registered in New under its uuid, the registry
grows by at most one entry and the counter by exactly one; a tick with the
counter at or above the total sends nothing and changes nothing; an event
step leaves the counter and the number of originate commands sent as they
are and adds no key to the registry. -/
theorem tick_creates_one_call (T : Transport) (totalCalls : Int) (s : LoopState) :
    (s.callsCount < totalCalls →
      (∃ a c1, newCall T s.conn = (Except.error a, c1) ∧
        tickCase T totalCalls s = Status.aborted a s.calls c1) ∨
      (∃ call c1, newCall T s.conn = (Except.ok call, c1) ∧ call.state = stateNew ∧
        c1.sent = s.conn.sent ++ [originateCommand] ∧
        (mapSet call.uuid call s.calls).length ≤ s.calls.length + 1 ∧
        mapGet (mapSet call.uuid call s.calls) call.uuid = some call ∧
        tickCase T totalCalls s = Status.running
          { calls := mapSet call.uuid call s.calls, callsCount := s.callsCount + 1,
            conn := c1 })) ∧
    (¬ s.callsCount < totalCalls →
      tickCase T totalCalls s = Status.running s ∨
      tickCase T totalCalls s = Status.exited s) ∧
    (∀ ev order s1, eventCase T s ev order = Status.running s1 →
      s1.callsCount = s.callsCount ∧
      s1.conn.sent.count originateCommand = s.conn.sent.count originateCommand ∧
      ∀ k ∈ mapKeys s1.calls, k ∈ mapKeys s.calls) := by
  refine ⟨?_, ?_, ?_⟩
  · intro hlt
    rcases hn : newCall T s.conn with ⟨_ | call, c1⟩
    · rename_i a
      exact Or.inl ⟨a, c1, rfl, by simp only [tickCase, hlt, if_true, hn]⟩
    · refine Or.inr ⟨call, c1, rfl, (newCall_ok hn).1, (newCall_ok hn).2.1, ?_,
        mapGet_mapSet_self _ _ _, ?_⟩
      · rw [length_mapSet]
        split <;> omega
      · have hne : ¬ (mapSet call.uuid call s.calls).length = 0 := by
          intro h0
          exact mapSet_ne_nil _ _ _ (List.length_eq_zero.mp h0)
        simp only [tickCase, hlt, if_true, hn, hne, if_false]
  · intro hge
    by_cases h0 : s.calls.length = 0
    · exact Or.inr (by simp only [tickCase, hge, if_false, h0, if_true])
    · exact Or.inl (by simp only [tickCase, hge, if_false, h0])
  · intro ev order s1 h
    rcases eventCase_running h with ⟨_, h1⟩ | ⟨_, _, h1⟩ | ⟨call, _, hg, _, h1⟩
    · rw [h1]
      exact ⟨rfl, rfl, fun k hk => hk⟩
    · rw [h1]
      exact ⟨rfl, rfl, fun k hk => sweep_keys_subset order _ k hk⟩
    · rw [h1]
      refine ⟨rfl, ?_, ?_⟩
      · simp only []
        rcases handleCallEvent_sent_cases T s.conn call ev with h2 | h2 | h2 <;> rw [h2]
        · rw [List.count_append, List.count_singleton]
          have : (playCommand call.uuid == originateCommand) = false := by
            simpa using playCommand_ne_originate call.uuid
          simp [this]
        · rw [List.count_append, List.count_singleton]
          have : (hangupCommand call.uuid == originateCommand) = false := by
            simpa using hangupCommand_ne_originate call.uuid
          simp [this]
      · intro k hk
        have := sweep_keys_subset order _ k hk
        rwa [mapKeys_mapSet_of_mem hg] at this

theorem tick_creates_one_call_witness :
    sampleStart.callsCount < 3 ∧
    ∃ call c1, newCall sampleTransport sampleStart.conn = (Except.ok call, c1) ∧
      tickCase sampleTransport 3 sampleStart = Status.running
        { calls := mapSet call.uuid call sampleStart.calls,
          callsCount := sampleStart.callsCount + 1, conn := c1 } := by
  refine ⟨by decide, ?_⟩
  rcases (tick_creates_one_call sampleTransport 3 sampleStart).1 (by decide) with
    ⟨a, c1, h1, _⟩ | ⟨call, c1, h1, _, _, _, _, h2⟩
  · have h3 : newCall sampleTransport sampleStart.conn
        = (Except.ok { uuid := "", state := stateNew },
           { sent := sampleStart.conn.sent ++ [originateCommand] }) := rfl
    rw [h3] at h1
    simp at h1
  · exact ⟨call, c1, h1, h2⟩

/-! ## Keys and the sweep -/

/-- C18: in a reachable loop state every key maps to a call whose uuid is the
key; a call created at startup or on a tick is in New and is registered under
the identifier `grabUuidFromOKBody` extracted from the originate reply; and
the sweep that follows the handling of an event, whatever enumeration of the
keys it follows, keeps exactly the entries whose call is not in Done. -/
theorem keys_match_and_sweep_exact (T : Transport) (totalCalls : Int) (s : LoopState)
    (hs : Reachable T totalCalls s) :
    (∀ k call, mapGet s.calls k = some call → call.uuid = k) ∧
    (∀ e ∈ s.calls, e.2.uuid = e.1) ∧
    (∀ call c1, newCall T s.conn = (Except.ok call, c1) →
      call.state = stateNew ∧
      (∃ rev, T s.conn.sent originateCommand = Except.ok rev ∧
        call.uuid = (grabUuidFromOKBody rev).1) ∧
      mapGet (mapSet call.uuid call s.calls) call.uuid = some call) ∧
    (∀ s0, startup T = Status.running s0 →
      ∃ call rev, T ["events json ALL"] originateCommand = Except.ok rev ∧
        call.uuid = (grabUuidFromOKBody rev).1 ∧ call.state = stateNew ∧
        s0.calls = [(call.uuid, call)]) ∧
    (∀ (ev : Event) (order : List String) (call : inprogressCall),
      order.Perm (mapKeys s.calls) →
      mapGet s.calls (ev.Get "Unique-Id") = some call →
      sweep order (mapSet (ev.Get "Unique-Id") (handleCallEvent T s.conn call ev).call s.calls)
        = (mapSet (ev.Get "Unique-Id") (handleCallEvent T s.conn call ev).call s.calls).filter
            (fun e => !decide (e.2.state = stateDone))) ∧
    (∀ (order : List String), order.Perm (mapKeys s.calls) →
      sweep order s.calls = s.calls.filter (fun e => !decide (e.2.state = stateDone))) := by
  have hi := reachable_inv hs
  refine ⟨?_, hi.reg.keys, ?_, ?_, ?_, ?_⟩
  · intro k call hg
    exact hi.reg.keys _ (mem_of_mapGet hg)
  · intro call c1 hn
    obtain ⟨h1, _, rev, h3, h4⟩ := newCall_ok hn
    exact ⟨h1, ⟨rev, h3, by rw [h4]⟩, mapGet_mapSet_self _ _ _⟩
  · intro s0 h0
    unfold startup at h0
    simp only [Connection.Send, List.nil_append] at h0
    split at h0
    · simp at h0
    · rename_i call c2 hn
      simp only [Status.running.injEq] at h0
      subst h0
      obtain ⟨h1, _, rev, h3, h4⟩ := newCall_ok hn
      exact ⟨call, rev, h3, by rw [h4], h1, rfl⟩
  · intro ev order call hf hg
    have hu : (handleCallEvent T s.conn call ev).call.uuid = ev.Get "Unique-Id" := by
      rw [handleCallEvent_uuid]
      exact hi.reg.keys _ (mem_of_mapGet hg)
    apply sweep_covering (keysMatch_mapSet hi.reg.keys hu) (nodup_mapSet hi.reg.nodup)
    intro k hk
    rw [mapKeys_mapSet_of_mem hg] at hk
    exact hf.mem_iff.mpr hk
  · intro order hf
    exact sweep_covering hi.reg.keys hi.reg.nodup (fun k hk => hf.mem_iff.mpr hk)

theorem keys_match_and_sweep_exact_witness :
    Reachable sampleTransport 1 sampleWaiting ∧
    sweep [sampleUuid] (mapSet sampleUuid { uuid := sampleUuid, state := stateDone }
      sampleWaiting.calls) = [] := by
  have h := (keys_match_and_sweep_exact sampleTransport 1 sampleWaiting
    (sampleWaiting_reachable 1)).2.2.2.2.1 sampleDestroy [sampleUuid]
    { uuid := sampleUuid, state := stateWaitingHangup } (List.Perm.refl _) (by decide)
  refine ⟨sampleWaiting_reachable 1, ?_⟩
  have h1 : (handleCallEvent sampleTransport sampleWaiting.conn
      { uuid := sampleUuid, state := stateWaitingHangup } sampleDestroy).call
      = { uuid := sampleUuid, state := stateDone } := by decide
  have h2 : sampleDestroy.Get "Unique-Id" = sampleUuid := by decide
  rw [h1, h2] at h
  rw [h]
  decide

/-! ## The empty identifier -/

theorem step_keeps_empty {T : Transport} {totalCalls : Int} {s s1 : LoopState} {i : Input}
    (hi : LoopInv totalCalls s) (h : step T totalCalls s i = Status.running s1)
    (hg : mapGet s.calls "" = some { uuid := "", state := stateNew }) :
    mapGet s1.calls "" = some { uuid := "", state := stateNew } := by
  cases i with
  | event ev order =>
    simp only [step] at h
    rcases eventCase_calls hi h with h1 | ⟨hlen, h1⟩
    · rw [h1]; exact hg
    · rw [h1 "" (fun h0 => hlen (by rw [← h0]; rfl))]
      exact hg
  | tick =>
    simp only [step] at h
    rcases tickCase_running h with ⟨_, call, c1, hn, h1⟩ | ⟨_, h1⟩
    · rw [h1]
      simp only []
      by_cases hu : call.uuid = ""
      · rw [hu, mapGet_mapSet_self]
        have := (newCall_ok hn).1
        obtain ⟨u, st⟩ := call
        simp only [] at hu this
        rw [hu, this]
      · rw [mapGet_mapSet_ne _ _ (fun h0 => hu h0.symm)]
        exact hg
    · rw [h1]; exact hg

theorem reachableFrom_keeps_empty {T : Transport} {totalCalls : Int} {s s2 : LoopState}
    (hr : ReachableFrom T totalCalls s s2) (hi : LoopInv totalCalls s)
    (hg : mapGet s.calls "" = some { uuid := "", state := stateNew }) :
    LoopInv totalCalls s2 ∧ mapGet s2.calls "" = some { uuid := "", state := stateNew } := by
  induction hr with
  | refl => exact ⟨hi, hg⟩
  | next i _ hf hstep ih => exact ⟨step_inv i ih.1 hf hstep, step_keeps_empty ih.1 hstep ih.2⟩

/-- C19: in a reachable loop state a call registered under the empty key has
the empty uuid and is in New; from then on, in every loop state reached, the
empty key still maps to such a call, an event with an empty Unique-Id leaves
the state as it is, the registry is not empty and no step returns
normally. -/
theorem empty_identifier_call_stuck (T : Transport) (totalCalls : Int) (s : LoopState)
    (call : inprogressCall) (hs : Reachable T totalCalls s)
    (hg : mapGet s.calls "" = some call) :
    call = { uuid := "", state := stateNew } ∧
    ∀ s2, ReachableFrom T totalCalls s s2 →
      mapGet s2.calls "" = some { uuid := "", state := stateNew } ∧
      s2.calls ≠ [] ∧
      (∀ ev order, ev.Get "Unique-Id" = "" → eventCase T s2 ev order = Status.running s2) ∧
      (∀ i s3, step T totalCalls s2 i ≠ Status.exited s3) := by
  have hi := reachable_inv hs
  have hmem := mem_of_mapGet hg
  have hc : call = { uuid := "", state := stateNew } := by
    have h1 := hi.reg.keys _ hmem
    have h2 := hi.emptyNew _ hmem rfl
    obtain ⟨u, st⟩ := call
    simp only [] at h1 h2
    rw [h1, h2]
  refine ⟨hc, ?_⟩
  intro s2 hr
  obtain ⟨hi2, hg2⟩ := reachableFrom_keeps_empty hr hi (hc ▸ hg)
  have hne : s2.calls ≠ [] := by
    intro h0
    rw [h0] at hg2
    simp [mapGet, List.lookup] at hg2
  refine ⟨hg2, hne, ?_, ?_⟩
  · intro ev order he
    exact eventCase_unroutable hi2.reg.live ev order
      (Or.inl ((string_length_eq_zero _).mpr he))
  · intro i s3 h
    cases i with
    | event ev order => exact eventCase_not_exited h
    | tick =>
      simp only [step] at h
      exact hne (tickCase_exited h).2.2

theorem empty_identifier_call_stuck_witness :
    Reachable okTransport 1
      { calls := [("", { uuid := "", state := stateNew })], callsCount := 1,
        conn := { sent := ["events json ALL", originateCommand] } } ∧
    ∀ s3, step okTransport 1
      { calls := [("", { uuid := "", state := stateNew })], callsCount := 1,
        conn := { sent := ["events json ALL", originateCommand] } } Input.tick
      ≠ Status.exited s3 :=
  ⟨Reachable.start (by decide),
   fun s3 =>
    ((empty_identifier_call_stuck okTransport 1 _ { uuid := "", state := stateNew }
      (Reachable.start (by decide)) (by decide)).2 _ ReachableFrom.refl).2.2.2
      Input.tick s3⟩

end Mediastress
